import Mathlib

/-!
Verification development for the Zipmetro dual-backend data-access shim
(`backend/database/db.js`, MongoDB branch).  The SQL-string-to-document-query
translator (`sqlToMongoQuery`), the collection-name extractor
(`getCollectionName`) and the three adapter operations (`getAsync`,
`allAsync`, `runAsync`) are shallowly embedded below.  Strings are modelled
as `List Char`; the specific JavaScript regular expressions used by the
source are implemented as executable scanning functions with the same
leftmost-match, greedy/lazy backtracking semantics.  JavaScript exceptions
are modelled by `Option` (`none` = a thrown error); the Mongo regular
expression engine, the wall clock and the driver-generated document
identifier are abstracted as parameters `rm`, `now` and `fresh`.
-/

set_option linter.unusedVariables false

namespace Zipmetro

/-- JavaScript runtime values as they flow through the database shim. -/
inductive JSVal where
  | str (s : String)
  | num (n : Int)
  | boolean (b : Bool)
  | undef
  | null
  | nan
  | oid (s : String)
  | date (t : Nat)
  deriving DecidableEq, Repr

/-- JavaScript truthiness. -/
def truthy : JSVal → Bool
  | .str s => s ≠ ""
  | .num n => n ≠ 0
  | .boolean b => b
  | .undef => false
  | .null => false
  | .nan => false
  | .oid _ => true
  | .date _ => true

/-- JavaScript `a || b`. -/
def jsOr (a b : JSVal) : JSVal := if truthy a then a else b

/-- Characters matched by the JavaScript regex class `\s` (ASCII part). -/
def jsSpace (c : Char) : Bool :=
  c = ' ' || c = '\t' || c = '\n' || c = '\r' || c = '\x0b' || c = '\x0c'

/-- Characters matched by the JavaScript regex class `\w`. -/
def isWordChar (c : Char) : Bool :=
  ('a' ≤ c && c ≤ 'z') || ('A' ≤ c && c ≤ 'Z') || ('0' ≤ c && c ≤ '9') || c = '_'

/-- Characters matched by the JavaScript regex `.` (everything but line terminators). -/
def dotOK (c : Char) : Bool := !(c = '\n' || c = '\r' || c = '\u2028' || c = '\u2029')

/-- ASCII lower-casing, as used for case-insensitive regex flags. -/
def lowerChar (c : Char) : Char :=
  if 'A' ≤ c && c ≤ 'Z' then Char.ofNat (c.toNat + 32) else c

/-- ASCII upper-casing, as used by `String.prototype.toUpperCase`. -/
def upperChar (c : Char) : Char :=
  if 'a' ≤ c && c ≤ 'z' then Char.ofNat (c.toNat - 32) else c

/-- Case-insensitive character comparison (the `i` regex flag). -/
def ciEq (a b : Char) : Bool := lowerChar a = lowerChar b

/-- JavaScript `sql.toUpperCase()`. -/
def ucase (l : List Char) : List Char := l.map upperChar

/-- View a string literal as a character list. -/
def strL (s : String) : List Char := s.data

/-- Case-sensitive literal prefix test (pattern first). -/
def startsWithP : List Char → List Char → Bool
  | [], _ => true
  | _ :: _, [] => false
  | p :: ps, c :: cs => p = c && startsWithP ps cs

/-- Case-insensitive literal prefix test (pattern first). -/
def startsWithCI : List Char → List Char → Bool
  | [], _ => true
  | _ :: _, [] => false
  | p :: ps, c :: cs => ciEq p c && startsWithCI ps cs

/-- JavaScript `String.prototype.includes` (case-sensitive). -/
def containsSub (pat : List Char) : List Char → Bool
  | [] => startsWithP pat []
  | l@(_ :: cs) => startsWithP pat l || containsSub pat cs

/-- JavaScript `String.prototype.trim`. -/
def trimL (l : List Char) : List Char :=
  ((l.dropWhile jsSpace).reverse.dropWhile jsSpace).reverse

/-- Length of the leading whitespace run (the greedy extent of `\s+` or `\s*`). -/
def wsRunL (l : List Char) : Nat := (l.takeWhile jsSpace).length

/-- The maximal leading `\w+` run. -/
def wordRun (l : List Char) : List Char := l.takeWhile isWordChar

/-- Leftmost-match regex search: try the attempt function at every start
position from the left, like the JavaScript regex engine. -/
def scanFor {α : Type} (f : List Char → Option α) : List Char → Option α
  | [] => f []
  | l@(_ :: cs) =>
    match f l with
    | some r => some r
    | none => scanFor f cs

/-- Attempt of `/(\w+)\s*=\s*\?/` anchored at the current position,
returning the captured field name.  The maximal `\w+` run is the only
candidate: a shorter run would leave a word character where the pattern
next requires `\s*` or `=`. -/
def eqMatchAt (l : List Char) : Option (List Char) :=
  let w := wordRun l
  if w.isEmpty then none
  else
    match (l.drop w.length).dropWhile jsSpace with
    | '=' :: r2 =>
      match r2.dropWhile jsSpace with
      | '?' :: _ => some w
      | _ => none
    | _ => none

/-- JavaScript `condition.match(/(\w+)\s*=\s*\?/)`, capture group 1. -/
def eqMatch (l : List Char) : Option (List Char) := scanFor eqMatchAt l

/-- Attempt of `/(\w+)\s+LIKE\s+\?/` (case-sensitive, no `i` flag in the
source) anchored at the current position. -/
def likeMatchAt (l : List Char) : Option (List Char) :=
  let w := wordRun l
  if w.isEmpty then none
  else
    let r1 := l.drop w.length
    let s1 := wsRunL r1
    if s1 = 0 then none
    else
      let r2 := r1.drop s1
      if startsWithP (strL "LIKE") r2 then
        let r3 := r2.drop 4
        let s2 := wsRunL r3
        if s2 = 0 then none
        else
          match r3.drop s2 with
          | '?' :: _ => some w
          | _ => none
      else none

/-- JavaScript `condition.match(/(\w+)\s+LIKE\s+\?/)`, capture group 1. -/
def likeMatch (l : List Char) : Option (List Char) := scanFor likeMatchAt l

/-- Attempt of `/\((\w+)\s+LIKE\s+\?\s+OR\s+(\w+)\s+LIKE\s+\?\)/`
anchored at the current position, returning both captured field names. -/
def orLikeMatchAt (l : List Char) : Option (List Char × List Char) :=
  match l with
  | '(' :: r0 =>
    let f1 := wordRun r0
    if f1.isEmpty then none
    else
      let r1 := r0.drop f1.length
      let s1 := wsRunL r1
      if s1 = 0 then none
      else
        let r2 := r1.drop s1
        if startsWithP (strL "LIKE") r2 then
          let r3 := r2.drop 4
          let s2 := wsRunL r3
          if s2 = 0 then none
          else
            match r3.drop s2 with
            | '?' :: r4 =>
              let s3 := wsRunL r4
              if s3 = 0 then none
              else
                let r5 := r4.drop s3
                if startsWithP (strL "OR") r5 then
                  let r6 := r5.drop 2
                  let s4 := wsRunL r6
                  if s4 = 0 then none
                  else
                    let r7 := r6.drop s4
                    let f2 := wordRun r7
                    if f2.isEmpty then none
                    else
                      let r8 := r7.drop f2.length
                      let s5 := wsRunL r8
                      if s5 = 0 then none
                      else
                        let r9 := r8.drop s5
                        if startsWithP (strL "LIKE") r9 then
                          let r10 := r9.drop 4
                          let s6 := wsRunL r10
                          if s6 = 0 then none
                          else
                            match r10.drop s6 with
                            | '?' :: ')' :: _ => some (f1, f2)
                            | _ => none
                        else none
                else none
            | _ => none
        else none
  | _ => none

/-- JavaScript `condition.match(/\((\w+)\s+LIKE\s+\?\s+OR\s+(\w+)\s+LIKE\s+\?\)/)`. -/
def orLikeMatch (l : List Char) : Option (List Char × List Char) := scanFor orLikeMatchAt l

/-- Attempt of `/1\s*=\s*1\s*AND\s*/i` anchored at the current position,
returning the remainder after the matched text. -/
def stripOneAt (l : List Char) : Option (List Char) :=
  match l with
  | '1' :: r0 =>
    match r0.dropWhile jsSpace with
    | '=' :: r1 =>
      match r1.dropWhile jsSpace with
      | '1' :: r2 =>
        let r3 := r2.dropWhile jsSpace
        if startsWithCI (strL "AND") r3 then some ((r3.drop 3).dropWhile jsSpace)
        else none
      | _ => none
    | _ => none
  | _ => none

theorem dropWhile_length_le {p : Char → Bool} (l : List Char) :
    (l.dropWhile p).length ≤ l.length := by
  induction l with
  | nil => simp [List.dropWhile]
  | cons c cs ih =>
    by_cases h : p c <;> simp [List.dropWhile, h] <;> omega


theorem stripOneAt_length {l r : List Char} (h : stripOneAt l = some r) :
    r.length < l.length := by
  unfold stripOneAt at h
  split at h
  case h_2 => simp at h
  case h_1 r0 =>
    split at h <;> try exact Option.noConfusion h
    rename_i r1 heq1
    split at h <;> try exact Option.noConfusion h
    rename_i r2 heq2
    simp only [] at h
    split at h <;> try exact Option.noConfusion h
    simp only [Option.some.injEq] at h
    subst h
    have s0 : (((r2.dropWhile jsSpace).drop 3).dropWhile jsSpace) <:+ r2 :=
      (List.dropWhile_suffix _).trans (((List.drop_suffix 3 _).trans
        (List.dropWhile_suffix _)))
    have s1 : r2 <:+ r1 :=
      (List.suffix_cons '1' r2).trans (heq2 ▸ List.dropWhile_suffix _)
    have s2 : r1 <:+ r0 :=
      (List.suffix_cons '=' r1).trans (heq1 ▸ List.dropWhile_suffix _)
    have hle := ((s0.trans s1).trans s2).length_le
    simp only [List.length_cons]
    omega

/-- Fuel-driven worker for the global replace of `/1\\s*=\\s*1\\s*AND\\s*/gi`:
scan left to right, erase each match, continue right after the erased
text.  The fuel only certifies termination; `stripAllF_congr` shows any
fuel of at least the list length gives the same result. -/
def stripAllF : Nat → List Char → List Char
  | _, [] => []
  | 0, l => l
  | fuel + 1, c :: cs =>
    match stripOneAt (c :: cs) with
    | some r => stripAllF fuel r
    | none => c :: stripAllF fuel cs

theorem stripAllF_congr : ∀ (f1 : Nat) {f2 : Nat} {l : List Char},
    l.length ≤ f1 → l.length ≤ f2 → stripAllF f1 l = stripAllF f2 l := by
  intro f1
  induction f1 with
  | zero =>
    intro f2 l h1 h2
    have : l = [] := List.eq_nil_of_length_eq_zero (Nat.le_zero.mp h1)
    subst this
    cases f2 <;> rfl
  | succ f ih =>
    intro f2 l h1 h2
    match l with
    | [] => cases f2 <;> rfl
    | c :: cs =>
      match f2, h2 with
      | g + 1, h2 =>
        simp only [stripAllF]
        match hs : stripOneAt (c :: cs) with
        | some r =>
          have hr := stripOneAt_length hs
          simp only [List.length_cons] at h1 h2 hr
          exact ih (by omega) (by omega)
        | none =>
          simp only [List.length_cons] at h1 h2
          exact congrArg (c :: ·) (ih (by omega) (by omega))

/-- JavaScript `whereClause.replace(/1\\s*=\\s*1\\s*AND\\s*/gi, \'\')`. -/
def stripAll (l : List Char) : List Char := stripAllF l.length l

/-- Attempt of the separator `/\s+AND\s+/i` at the current position,
returning the remainder after the separator. -/
def sepANDAt (l : List Char) : Option (List Char) :=
  let s1 := wsRunL l
  if s1 = 0 then none
  else
    let r1 := l.drop s1
    if startsWithCI (strL "AND") r1 then
      let r2 := r1.drop 3
      let s2 := wsRunL r2
      if s2 = 0 then none else some (r2.drop s2)
    else none

theorem sepANDAt_length {l r : List Char} (h : sepANDAt l = some r) :
    r.length < l.length := by
  simp only [sepANDAt] at h
  split at h <;> try exact Option.noConfusion h
  rename_i h1
  split at h <;> try exact Option.noConfusion h
  split at h <;> try exact Option.noConfusion h
  rename_i h2
  simp only [Option.some.injEq] at h
  subst h
  have hw : wsRunL l ≤ l.length := by
    unfold wsRunL
    have := (List.takeWhile_prefix (l := l) (p := jsSpace)).length_le
    omega
  have hlen : (l.drop (wsRunL l)).length = l.length - wsRunL l := List.length_drop _ _
  have hlen2 : ((l.drop (wsRunL l)).drop 3).length = (l.drop (wsRunL l)).length - 3 :=
    List.length_drop _ _
  have hlen3 : (((l.drop (wsRunL l)).drop 3).drop
      (wsRunL ((l.drop (wsRunL l)).drop 3))).length =
      ((l.drop (wsRunL l)).drop 3).length - wsRunL ((l.drop (wsRunL l)).drop 3) :=
    List.length_drop _ _
  omega

/-- Fuel-driven worker for `whereClause.split(/\\s+AND\\s+/i)`: cut at each
leftmost separator match.  The fuel only certifies termination. -/
def splitANDAuxF : Nat → List Char → List Char → List (List Char)
  | _, acc, [] => [acc.reverse]
  | 0, acc, l => [acc.reverse ++ l]
  | fuel + 1, acc, c :: cs =>
    match sepANDAt (c :: cs) with
    | some r => acc.reverse :: splitANDAuxF fuel [] r
    | none => splitANDAuxF fuel (c :: acc) cs

theorem splitANDAuxF_congr : ∀ (f1 : Nat) {f2 : Nat} {acc l : List Char},
    l.length ≤ f1 → l.length ≤ f2 → splitANDAuxF f1 acc l = splitANDAuxF f2 acc l := by
  intro f1
  induction f1 with
  | zero =>
    intro f2 acc l h1 h2
    have : l = [] := List.eq_nil_of_length_eq_zero (Nat.le_zero.mp h1)
    subst this
    cases f2 <;> rfl
  | succ f ih =>
    intro f2 acc l h1 h2
    match l with
    | [] => cases f2 <;> rfl
    | c :: cs =>
      match f2, h2 with
      | g + 1, h2 =>
        simp only [splitANDAuxF]
        match hs : sepANDAt (c :: cs) with
        | some r =>
          have hr := sepANDAt_length hs
          simp only [List.length_cons] at h1 h2 hr
          exact congrArg (List.reverse acc :: ·) (ih (by omega) (by omega))
        | none =>
          simp only [List.length_cons] at h1 h2
          exact ih (by omega) (by omega)

/-- JavaScript `whereClause.split(/\\s+AND\\s+/i)`. -/
def splitAND (l : List Char) : List (List Char) := splitANDAuxF l.length [] l

/-- Lazy-capture stop test for `(?:\s+KW1|\s+KW2|$)`: the tail matches here
when the input is exhausted, or after at least one whitespace character one
of the stop keywords follows (case-insensitively). -/
def stopsAt (stops : List (List Char)) (l : List Char) : Bool :=
  match l with
  | [] => true
  | _ => wsRunL l ≠ 0 && stops.any (fun w => startsWithCI w (l.drop (wsRunL l)))

/-- Lazy expansion of `(.+?)` followed by the stop alternatives: prefer
stopping at each point once at least one character has been captured,
otherwise consume the next character (which must not be a line
terminator). -/
def lazyCap (stops : List (List Char)) : List Char → List Char → Option (List Char)
  | acc, [] => if acc.isEmpty then none else some acc.reverse
  | acc, c :: cs =>
    if !acc.isEmpty && stopsAt stops (c :: cs) then some acc.reverse
    else if dotOK c then lazyCap stops (c :: acc) cs
    else none

/-- Greedy `\s+` with backtracking: try the longest whitespace run first,
then shorter ones, each followed by the lazy capture. -/
def tryWS (stops : List (List Char)) : Nat → List Char → Option (List Char)
  | 0, _ => none
  | k + 1, l =>
    match lazyCap stops [] (l.drop (k + 1)) with
    | some w => some w
    | none => tryWS stops k l

/-- Attempt of `/KW\s+(.+?)(?:\s+S1|\s+S2|$)/i` anchored at the current
position. -/
def kwCapAt (kw : List Char) (stops : List (List Char)) (l : List Char) : Option (List Char) :=
  if startsWithCI kw l then
    let r := l.drop kw.length
    tryWS stops (wsRunL r) r
  else none

/-- Leftmost match of `/KW\s+(.+?)(?:\s+S1|\s+S2|$)/i` over the whole
string, returning capture group 1. -/
def kwCap (kw : List Char) (stops : List (List Char)) (sql : List Char) : Option (List Char) :=
  scanFor (kwCapAt kw stops) sql

/-- JavaScript `sql.match(/WHERE\s+(.+?)(?:\s+ORDER|\s+LIMIT|$)/i)`, capture
group 1. -/
def whereClauseOf (sql : List Char) : Option (List Char) :=
  kwCap (strL "WHERE") [strL "ORDER", strL "LIMIT"] sql

/-- JavaScript `sql.match(/SET\s+(.+?)(?:\s+WHERE|$)/i)`, capture group 1. -/
def setClauseOf (sql : List Char) : Option (List Char) :=
  kwCap (strL "SET") [strL "WHERE"] sql

/-- Attempt of one alternative `KW\s+(\w+)` of the collection-name regex. -/
def kwWordAt (kw : List Char) (l : List Char) : Option (List Char) :=
  if startsWithCI kw l then
    let r := l.drop kw.length
    let s := wsRunL r
    if s = 0 then none
    else
      let w := wordRun (r.drop s)
      if w.isEmpty then none else some w
  else none

/-- Attempt of `/FROM\s+(\w+)|INTO\s+(\w+)|UPDATE\s+(\w+)/i` at the current
position (alternatives in source order). -/
def collectionAt (l : List Char) : Option (List Char) :=
  match kwWordAt (strL "FROM") l with
  | some w => some w
  | none =>
    match kwWordAt (strL "INTO") l with
    | some w => some w
    | none => kwWordAt (strL "UPDATE") l

/-- The source helper `getCollectionName(sql)`: leftmost match of
`/FROM\s+(\w+)|INTO\s+(\w+)|UPDATE\s+(\w+)/i`, first successful group. -/
def getCollectionName (sql : List Char) : Option String :=
  (scanFor collectionAt sql).map String.mk

/-- Attempt of `/ORDER BY\s+(\w+)\s+(ASC|DESC)?/i` at the current position:
returns the sort field and whether the optional second group matched
`DESC`. -/
def orderByAt (l : List Char) : Option (String × Bool) :=
  if startsWithCI (strL "ORDER BY") l then
    let r := l.drop 8
    let s1 := wsRunL r
    if s1 = 0 then none
    else
      let r2 := r.drop s1
      let w := wordRun r2
      if w.isEmpty then none
      else
        let r3 := r2.drop w.length
        let s2 := wsRunL r3
        if s2 = 0 then none
        else
          let r4 := r3.drop s2
          if startsWithCI (strL "ASC") r4 then some (String.mk w, false)
          else some (String.mk w, startsWithCI (strL "DESC") r4)
  else none

/-- JavaScript `sql.match(/ORDER BY\s+(\w+)\s+(ASC|DESC)?/i)` digested to
the sort field and the descending flag
(`orderMatch[2]?.toUpperCase() === 'DESC'`). -/
def orderByOf (sql : List Char) : Option (String × Bool) := scanFor orderByAt sql

/-- JavaScript `str.replace(/T/g, repl)` for a single target character. -/
def replAllChar (t : Char) (repl : List Char) : List Char → List Char
  | [] => []
  | c :: cs => if c = t then repl ++ replAllChar t repl cs else c :: replAllChar t repl cs

/-- JavaScript `pattern.replace(/%/g, '.*').replace(/_/g, '.')`. -/
def likeToRegex (p : List Char) : List Char :=
  replAllChar '_' ['.'] (replAllChar '%' ['.', '*'] p)

/-- Count of `?` characters, as in `(whereClause.match(/\?/g) || []).length`. -/
def countQ (l : List Char) : Nat := l.countP (fun c => c = '?')

/-- JavaScript `setClause.split(',')`. -/
def splitCommaAux : List Char → List Char → List (List Char)
  | acc, [] => [acc.reverse]
  | acc, ',' :: cs => acc.reverse :: splitCommaAux [] cs
  | acc, c :: cs => splitCommaAux (c :: acc) cs

def splitComma (l : List Char) : List (List Char) := splitCommaAux [] l

/-- JavaScript `params[i]`: out-of-range positions read `undefined`. -/
def getParam (params : List JSVal) (i : Nat) : JSVal := (params.get? i).getD JSVal.undef

/-- Model of `ObjectId.isValid` for string arguments: 12-character strings
(taken as raw bytes) or 24-character hexadecimal strings. -/
def objectIdValid (s : String) : Bool :=
  s.data.length = 12 || (s.data.length = 24 && s.data.all (fun c => c.isDigit ||
    ('a' ≤ c && c ≤ 'f') || ('A' ≤ c && c ≤ 'F')))

/-- JavaScript `parseInt` on a string argument. -/
def parseIntChars (l0 : List Char) : JSVal :=
  let l1 := l0.dropWhile jsSpace
  match l1 with
  | '-' :: r =>
    let d := r.takeWhile Char.isDigit
    if d.isEmpty then .nan
    else .num (-(d.foldl (fun a c => a * 10 + (c.toNat - 48)) 0 : Int))
  | '+' :: r =>
    let d := r.takeWhile Char.isDigit
    if d.isEmpty then .nan
    else .num (d.foldl (fun a c => a * 10 + (c.toNat - 48)) 0 : Int)
  | _ =>
    let d := l1.takeWhile Char.isDigit
    if d.isEmpty then .nan
    else .num (d.foldl (fun a c => a * 10 + (c.toNat - 48)) 0 : Int)

/-- JavaScript `parseInt(value)`: numbers pass through, strings are parsed,
everything else stringifies to something non-numeric and yields `NaN`. -/
def parseIntJS : JSVal → JSVal
  | .num n => .num n
  | .str s => parseIntChars s.data
  | _ => .nan

/-- One entry of a translated MongoDB filter: an equality, a `$regex` with
`$options: 'i'`, or the `$or` of two such regex conditions. -/
inductive FVal where
  | eqv (v : JSVal)
  | regex (pat : List Char)
  | orRegex (f1 : String) (p1 : List Char) (f2 : String) (p2 : List Char)
  deriving DecidableEq, Repr

/-- A translated MongoDB query object, as an insertion-ordered key-value
list (JavaScript object semantics). -/
abbrev Filter := List (String × FVal)

/-- JavaScript object property write `o[k] = v`: overwrite in place if the
key exists, else append. -/
def assocSet {α : Type} : List (String × α) → String → α → List (String × α)
  | [], k, v => [(k, v)]
  | (k2, v2) :: rest, k, v =>
    if k2 = k then (k, v) :: rest else (k2, v2) :: assocSet rest k v

/-- JavaScript object property read `o[k]`. -/
def assocGet {α : Type} (l : List (String × α)) (k : String) : Option α :=
  (l.find? (fun kv => kv.1 = k)).map (fun kv => kv.2)

/-- JavaScript `delete o[k]`. -/
def delKey {α : Type} (l : List (String × α)) (k : String) : List (String × α) :=
  l.filter (fun kv => kv.1 ≠ k)

/-- The `field === 'id'` special case of the equality branch:
`typeof value === 'string' && ObjectId.isValid(value)` converts to an
`ObjectId`; otherwise a truthy value is stored as is
(`value && value.toString`), and a falsy one falls back to
`parseInt(value) || value`. -/
def idAssign (v : JSVal) : JSVal :=
  match v with
  | .str s =>
    if objectIdValid s then .oid s
    else if truthy (.str s) then .str s
    else jsOr (parseIntJS (.str s)) (.str s)
  | v => if truthy v then v else jsOr (parseIntJS v) v

/-- The `field === 'active'` special case:
`value === 1 || value === true || value === '1'`. -/
def activeCoerce (v : JSVal) : JSVal :=
  .boolean (v = .num 1 || v = .boolean true || v = .str "1")

/-- The equality branch `query[field] = ...` with the `id` and `active`
special cases. -/
def applyEq (q : Filter) (field : List Char) (v : JSVal) : Filter :=
  if String.mk field = "id" then assocSet q "_id" (.eqv (idAssign v))
  else if String.mk field = "active" then assocSet q "active" (.eqv (activeCoerce v))
  else assocSet q (String.mk field) (.eqv v)

/-- JavaScript `pattern.replace(...)`: only strings respond to `replace`;
calling it on a truthy non-string throws a `TypeError`. -/
def patToRegex (v : JSVal) : Option (List Char) :=
  match v with
  | .str s => some (likeToRegex s.data)
  | _ => none

/-- One iteration of the `conditions.forEach` body of `sqlToMongoQuery`:
trim the condition, then try the equality, LIKE and OR-LIKE shapes in that
order, consuming parameters through the shared cursor.  `none` models a
thrown JavaScript error. -/
def procCond (params : List JSVal) (st : Filter × Nat) (c0 : List Char) :
    Option (Filter × Nat) :=
  let c := trimL c0
  match eqMatch c with
  | some f => some (applyEq st.1 f (getParam params st.2), st.2 + 1)
  | none =>
    match likeMatch c with
    | some f =>
      let p := getParam params st.2
      if truthy p then
        match patToRegex p with
        | some rx => some (assocSet st.1 (String.mk f) (.regex rx), st.2 + 1)
        | none => none
      else some (st.1, st.2 + 1)
    | none =>
      match orLikeMatch c with
      | some (f1, f2) =>
        let p1 := getParam params st.2
        let p2 := getParam params (st.2 + 1)
        match (if truthy p1 then patToRegex p1 else some []) with
        | none => none
        | some rx1 =>
          match (if truthy p2 then patToRegex p2 else some []) with
          | none => none
          | some rx2 =>
            some (assocSet st.1 "$or"
              (.orRegex (String.mk f1) rx1 (String.mk f2) rx2), st.2 + 2)
      | none => some st

/-- The `conditions.forEach` loop with the shared parameter cursor. -/
def parseCondsFrom (params : List JSVal) : Filter × Nat → List (List Char) → Option (Filter × Nat)
  | st, [] => some st
  | st, c :: cs =>
    match procCond params st c with
    | some st2 => parseCondsFrom params st2 cs
    | none => none

/-- Processing of an extracted WHERE clause: strip `1=1 AND`, split on
`AND`, then run the condition loop starting from the empty query and
parameter cursor 0. -/
def whereClauseToQuery (w : List Char) (params : List JSVal) : Option Filter :=
  (parseCondsFrom params ([], 0) (splitAND (stripAll w))).map (fun st => st.1)

/-- The source translator `sqlToMongoQuery(sql, params)`: an empty query
unless the literal (case-sensitive) substring `WHERE` occurs and the
case-insensitive WHERE-clause regex matches. -/
def sqlToMongoQuery (sql : List Char) (params : List JSVal) : Option Filter :=
  if containsSub (strL "WHERE") sql then
    match whereClauseOf sql with
    | some w => whereClauseToQuery w params
    | none => some []
  else some []

/-- A stored document: an insertion-ordered field map. -/
abbrev Doc := List (String × JSVal)

/-- A document collection, in insertion order (the natural cursor order of
an unsorted find). -/
abbrev Coll := List Doc

/-- The MongoDB regular-expression engine, abstracted: given the source
pattern characters (the `$regex` value, always evaluated with
`$options: 'i'`) and a subject string, decide the match. -/
abbrev RegexEngine := List Char → String → Bool

/-- A `$regex` condition tests the string value of the field; non-string
and missing fields do not match. -/
def regexTest (rm : RegexEngine) (d : Doc) (f : String) (p : List Char) : Bool :=
  match assocGet d f with
  | some (.str s) => rm p s
  | _ => false

/-- BSON equality matching for a filter entry `field: value`.  Querying
`null` also matches missing fields; the driver serializes `undefined` as
`null` by default. -/
def bsonEqMatch (o : Option JSVal) (v : JSVal) : Bool :=
  match v with
  | .null => o = none || o = some .null || o = some .undef
  | .undef => o = none || o = some .null || o = some .undef
  | v => o = some v

/-- Whether a document satisfies one filter entry. -/
def entryMatches (rm : RegexEngine) (d : Doc) : String × FVal → Bool
  | (f, .eqv v) => bsonEqMatch (assocGet d f) v
  | (f, .regex p) => regexTest rm d f p
  | (_, .orRegex f1 p1 f2 p2) => regexTest rm d f1 p1 || regexTest rm d f2 p2

/-- Whether a document satisfies every entry of a filter. -/
def docMatches (rm : RegexEngine) (d : Doc) (q : Filter) : Bool :=
  q.all (entryMatches rm d)

/-- The result-shape normalization applied by `getAsync` and `allAsync`:
`if (doc && doc._id) { doc.id = doc._id; delete doc._id; }`. -/
def normalizeDoc (d : Doc) : Doc :=
  match assocGet d "_id" with
  | some v => if truthy v then delKey (assocSet d "id" v) "_id" else d
  | none => d

/-- `collection.findOne(query)`: the first matching document in cursor
order. -/
def findOne (rm : RegexEngine) (coll : Coll) (q : Filter) : Option Doc :=
  coll.find? (fun d => docMatches rm d q)

/-- Result of the document adapter `getAsync`: a single row (or `null`),
or the count row produced for `SELECT COUNT(*)` queries. -/
inductive GetResult where
  | row (d : Option Doc)
  | countRow (n : Nat)
  deriving DecidableEq, Repr

/-- The document adapter `getAsync(sql, params)` over an abstract
collection.  `none` models a thrown error. -/
def getAsync (sql : List Char) (params : List JSVal) (coll : Coll) (rm : RegexEngine) :
    Option GetResult :=
  if containsSub (strL "SELECT COUNT(*)") (ucase sql) then
    match getCollectionName sql with
    | none => none
    | some _ =>
      match sqlToMongoQuery sql params with
      | none => none
      | some q => some (.countRow (coll.countP (fun d => docMatches rm d q)))
  else
    match getCollectionName sql with
    | none => none
    | some _ =>
      match sqlToMongoQuery sql params with
      | none => none
      | some q => some (.row ((findOne rm coll q).map normalizeDoc))

/-- A total order on stored values used to model the cursor sort: values
are bracketed by type and compared within a type. -/
def bsonRank : JSVal → Nat
  | .undef => 0
  | .null => 1
  | .nan => 2
  | .num _ => 3
  | .str _ => 4
  | .oid _ => 5
  | .boolean _ => 6
  | .date _ => 7

def jsValLe (a b : JSVal) : Bool :=
  match a, b with
  | .num x, .num y => x ≤ y
  | .str x, .str y => x ≤ y
  | .oid x, .oid y => x ≤ y
  | .boolean x, .boolean y => !x || y
  | .date x, .date y => x ≤ y
  | a, b => bsonRank a ≤ bsonRank b

/-- Document comparison for `cursor.sort({ field: direction })`. -/
def docLe (f : String) (dsc : Bool) (a b : Doc) : Bool :=
  let va := (assocGet a f).getD JSVal.undef
  let vb := (assocGet b f).getD JSVal.undef
  if dsc then jsValLe vb va else jsValLe va vb

/-- The ORDER BY handling of `allAsync`: a sort is attempted only when the
literal substring `ORDER BY` occurs, and applied only when the
case-insensitive ORDER BY regex also matches. -/
def applySort (sql : List Char) (docs : List Doc) : List Doc :=
  if containsSub (strL "ORDER BY") sql then
    match orderByOf sql with
    | some (f, dsc) => docs.mergeSort (docLe f dsc)
    | none => docs
  else docs

/-- The document adapter `allAsync(sql, params)` over an abstract
collection: every matching document, optionally sorted, each normalized. -/
def allAsync (sql : List Char) (params : List JSVal) (coll : Coll) (rm : RegexEngine) :
    Option (List Doc) :=
  match getCollectionName sql with
  | none => none
  | some _ =>
    match sqlToMongoQuery sql params with
    | none => none
    | some q => some ((applySort sql (coll.filter (fun d => docMatches rm d q))).map normalizeDoc)

/-- Outcome record of `runAsync` (`lastID` and `changes`). -/
structure RunResult where
  lastID : JSVal
  changes : Nat
  deriving DecidableEq, Repr

/-- The `fields.forEach((field, index) => ...)` loop of the INSERT branch:
positional pairing with the parameter list, skipping absent parameters,
remapping `id` to `_id`. -/
def buildInsertAux (params : List JSVal) : Nat → Doc → List (List Char) → Doc
  | _, acc, [] => acc
  | i, acc, f :: fs =>
    let acc2 :=
      match params.get? i with
      | none => acc
      | some .undef => acc
      | some v => if String.mk f = "id" then assocSet acc "_id" v
                  else assocSet acc (String.mk f) v
    buildInsertAux params (i + 1) acc2 fs

/-- The timestamp defaulting `if (!doc.created_at) doc.created_at = new Date()`. -/
def ensureStamp (d : Doc) (k : String) (now : Nat) : Doc :=
  if truthy ((assocGet d k).getD JSVal.undef) then d else assocSet d k (.date now)

/-- `collection.replaceOne(filter, doc)` restricted to the first match;
`none` when nothing matched. -/
def replaceFirst (rm : RegexEngine) (q : Filter) (newDoc : Doc) : Coll → Option Coll
  | [] => none
  | d :: ds =>
    if docMatches rm d q then some (newDoc :: ds)
    else (replaceFirst rm q newDoc ds).map (fun r => d :: r)

/-- Lazy expansion of `(.+?)\)`: capture up to the first `)` after at
least one character. -/
def parenCap : List Char → List Char → Option (List Char)
  | _, [] => none
  | acc, c :: cs =>
    if !acc.isEmpty && c = ')' then some acc.reverse
    else if dotOK c then parenCap (c :: acc) cs
    else none

/-- The `INTO\s+\w+\s*\((.+?)\)` tail of the INSERT fields regex. -/
def intoFields (r : List Char) : Option (List Char) :=
  if startsWithCI (strL "INTO") r then
    let r1 := r.drop 4
    let s := wsRunL r1
    if s = 0 then none
    else
      let w := wordRun (r1.drop s)
      if w.isEmpty then none
      else
        match ((r1.drop s).drop w.length).dropWhile jsSpace with
        | '(' :: r4 => parenCap [] r4
        | _ => none
  else none

/-- The optional group `(?:OR\s+REPLACE\s+)?`: remainder after a
successful greedy match of the group. -/
def orReplaceRest (r : List Char) : Option (List Char) :=
  if startsWithCI (strL "OR") r then
    let r1 := r.drop 2
    let s1 := wsRunL r1
    if s1 = 0 then none
    else
      let r2 := r1.drop s1
      if startsWithCI (strL "REPLACE") r2 then
        let r3 := r2.drop 7
        let s2 := wsRunL r3
        if s2 = 0 then none else some (r3.drop s2)
      else none
  else none

/-- Attempt of `/INSERT\s+(?:OR\s+REPLACE\s+)?INTO\s+\w+\s*\((.+?)\)/i` at
the current position, with backtracking over the optional group. -/
def insertFieldsAt (l : List Char) : Option (List Char) :=
  if startsWithCI (strL "INSERT") l then
    let r := l.drop 6
    let s1 := wsRunL r
    if s1 = 0 then none
    else
      let r1 := r.drop s1
      match orReplaceRest r1 with
      | some r2 =>
        match intoFields r2 with
        | some fs => some fs
        | none => intoFields r1
      | none => intoFields r1
  else none

/-- JavaScript
`sql.match(/INSERT\s+(?:OR\s+REPLACE\s+)?INTO\s+\w+\s*\((.+?)\)/i)`,
capture group 1. -/
def insertFieldsOf (sql : List Char) : Option (List Char) := scanFor insertFieldsAt sql

/-- The INSERT branch of `runAsync`.  The driver-generated document
identifier for an insert without an explicit `id` is abstracted by
`fresh`. -/
def runInsert (sql : List Char) (params : List JSVal) (coll : Coll) (rm : RegexEngine)
    (now : Nat) (fresh : String) : Option (RunResult × Coll) :=
  match insertFieldsOf sql with
  | none => none
  | some raw =>
    let fields := (splitComma raw).map trimL
    let doc0 := buildInsertAux params 0 [] fields
    let doc1 := ensureStamp doc0 "created_at" now
    let doc := ensureStamp doc1 "updated_at" now
    if containsSub (strL "INSERT OR REPLACE") (ucase sql) then
      let idv := (assocGet doc "_id").getD JSVal.undef
      match replaceFirst rm [("_id", .eqv idv)] doc coll with
      | some coll2 => some ({ lastID := jsOr idv .null, changes := 1 }, coll2)
      | none =>
        let inserted := if (assocGet doc "_id").isSome then doc
                        else assocSet doc "_id" (.oid fresh)
        let upsertedId := (assocGet inserted "_id").getD JSVal.undef
        some ({ lastID := jsOr idv upsertedId, changes := 1 }, coll ++ [inserted])
    else
      let inserted := if (assocGet doc "_id").isSome then doc
                      else assocSet doc "_id" (.oid fresh)
      some ({ lastID := (assocGet inserted "_id").getD JSVal.undef, changes := 1 },
        coll ++ [inserted])

/-- `Object.assign`-style application of a `$set` document. -/
def applySet (d : Doc) (upd : Doc) : Doc :=
  upd.foldl (fun acc kv => assocSet acc kv.1 kv.2) d

/-- `collection.updateOne(query, { $set: upd })`: update the first matching
document; `modifiedCount` is 1 exactly when that document changed. -/
def updateFirst (rm : RegexEngine) (q : Filter) (upd : Doc) : Coll → Nat × Coll
  | [] => (0, [])
  | d :: ds =>
    if docMatches rm d q then
      let d2 := applySet d upd
      (if d2 = d then 0 else 1, d2 :: ds)
    else
      let r := updateFirst rm q upd ds
      (r.1, d :: r.2)

/-- The `setFields.forEach((field, index) => ...)` loop of the UPDATE
branch: each assignment matching `(\w+)\s*=\s*\?` reads
`params[paramOffset + index]`, remapping `id` to `_id`. -/
def buildUpdatesAux (params : List JSVal) (off : Nat) : Nat → Doc → List (List Char) → Doc
  | _, acc, [] => acc
  | i, acc, f :: fs =>
    let acc2 :=
      match eqMatch f with
      | some name =>
        let v := getParam params (off + i)
        if String.mk name = "id" then assocSet acc "_id" v
        else assocSet acc (String.mk name) v
      | none => acc
    buildUpdatesAux params off (i + 1) acc2 fs

/-- The parameter offset of the UPDATE branch: the number of `?` in the
WHERE clause (`paramOffset`). -/
def updateParamOffset (sql : List Char) : Nat :=
  match whereClauseOf sql with
  | some w => countQ w
  | none => 0

/-- The `$set` assignments parsed from the SET clause, before the
timestamp refresh; `none` when the SET clause regex does not match
(`Could not parse UPDATE SET clause`). -/
def setAssignmentsOf (sql : List Char) (params : List JSVal) : Option Doc :=
  (setClauseOf sql).map (fun sc =>
    buildUpdatesAux params (updateParamOffset sql) 0 [] ((splitComma sc).map trimL))

/-- The UPDATE branch of `runAsync`. -/
def runUpdate (sql : List Char) (params : List JSVal) (coll : Coll) (rm : RegexEngine)
    (now : Nat) : Option (RunResult × Coll) :=
  match setAssignmentsOf sql params with
  | none => none
  | some upd0 =>
    match sqlToMongoQuery sql params with
    | none => none
    | some q =>
      let upd := assocSet upd0 "updated_at" (.date now)
      let r := updateFirst rm q upd coll
      some ({ lastID := .null, changes := r.1 }, r.2)

/-- `collection.deleteOne(query)`: remove the first matching document. -/
def deleteFirst (rm : RegexEngine) (q : Filter) : Coll → Nat × Coll
  | [] => (0, [])
  | d :: ds =>
    if docMatches rm d q then (1, ds)
    else
      let r := deleteFirst rm q ds
      (r.1, d :: r.2)

/-- The DELETE branch of `runAsync`. -/
def runDelete (sql : List Char) (params : List JSVal) (coll : Coll) (rm : RegexEngine) :
    Option (RunResult × Coll) :=
  match sqlToMongoQuery sql params with
  | none => none
  | some q =>
    let r := deleteFirst rm q coll
    some ({ lastID := .null, changes := r.1 }, r.2)

/-- The document adapter `runAsync(sql, params)`: dispatch on the
upper-cased statement verb; any other verb throws
(`Unsupported SQL operation for MongoDB`). -/
def runAsync (sql : List Char) (params : List JSVal) (coll : Coll) (rm : RegexEngine)
    (now : Nat) (fresh : String) : Option (RunResult × Coll) :=
  match getCollectionName sql with
  | none => none
  | some _ =>
    if startsWithP (strL "INSERT") (ucase sql) then runInsert sql params coll rm now fresh
    else if startsWithP (strL "UPDATE") (ucase sql) then runUpdate sql params coll rm now
    else if startsWithP (strL "DELETE") (ucase sql) then runDelete sql params coll rm
    else none

/-! ### Claim theorems -/

/-- C1 (code bug): the claim says a WHERE condition of the exact shape
`(field1 LIKE ? OR field2 LIKE ?)` consumes two parameters and produces a
two-field disjunction filter.  The code cannot do this: the single-LIKE
regex `(\w+)\s+LIKE\s+\?` is unanchored and matches inside the
parenthesised condition, so the single-LIKE branch fires first, consumes
only one parameter, and produces a one-field filter on `field1`; the
dedicated disjunction branch (whose regex does match the shape, third
conjunct below) is unreachable, and every later parameter is misaligned —
here the caller-style query of `routes/products` ends up with
`active: false` instead of `active: true` because the active flag reads
the second search pattern. -/
theorem c1_or_like_branch_dead :
    whereClauseToQuery (strL "(name LIKE ? OR desc LIKE ?)")
      [.str "%a%", .str "%b%"] =
      some [("name", .regex (strL ".*a.*"))] ∧
    orLikeMatch (strL "(name LIKE ? OR desc LIKE ?)") =
      some (strL "name", strL "desc") ∧
    sqlToMongoQuery
      (strL "SELECT * FROM products WHERE 1=1 AND (name LIKE ? OR desc LIKE ?) AND active = ?")
      [.str "%wid%", .str "%wid%", .num 1] =
      some [("name", .regex (strL ".*wid.*")), ("active", .eqv (.boolean false))] := by
  refine ⟨by decide, by decide, by decide⟩

/-- C2 (code bug): the claim says each `?` of a translated UPDATE is bound
to the caller parameter at that placeholder's textual position (SET values
first, then WHERE values), as the relational path and every call site of
the repository lay them out.  The code instead consumes WHERE parameters
from the start of the list and offsets SET assignments by the WHERE
placeholder count: for `UPDATE orders SET status = ? WHERE id = ?` with
`[status, id]` (the `routes/orders` call), the filter keys `_id` to the
status value and the SET assignment writes the id value into `status`, so
the matching document is missed entirely (changes 0). -/
theorem c2_update_param_layout_swapped :
    sqlToMongoQuery (strL "UPDATE orders SET status = ? WHERE id = ?")
      [.str "delivered", .str "68a1b2c3d4e5f6a7b8c9d0e1"] =
      some [("_id", .eqv (.str "delivered"))] ∧
    setAssignmentsOf (strL "UPDATE orders SET status = ? WHERE id = ?")
      [.str "delivered", .str "68a1b2c3d4e5f6a7b8c9d0e1"] =
      some [("status", .str "68a1b2c3d4e5f6a7b8c9d0e1")] ∧
    runAsync (strL "UPDATE orders SET status = ? WHERE id = ?")
      [.str "delivered", .str "68a1b2c3d4e5f6a7b8c9d0e1"]
      [[("_id", .oid "68a1b2c3d4e5f6a7b8c9d0e1"), ("status", .str "pending")]]
      (fun _ _ => false) 99 "f" =
      some ({ lastID := .null, changes := 0 },
        [[("_id", .oid "68a1b2c3d4e5f6a7b8c9d0e1"), ("status", .str "pending")]]) := by
  refine ⟨by decide, by decide, by decide⟩

/-- C3 counterexample: an UPDATE whose translated filter matches two
documents updates only the first; the second matching document keeps its
old field values, refuting the all-N-documents claim at this input. -/
theorem c3_counterexample :
    runAsync (strL "UPDATE orders SET status = ? WHERE status = ?")
      [.str "pending", .str "shipped"]
      [[("_id", .num 1), ("status", .str "pending")],
       [("_id", .num 2), ("status", .str "pending")]]
      (fun _ _ => false) 99 "f" =
      some ({ lastID := .null, changes := 1 },
        [[("_id", .num 1), ("status", .str "shipped"), ("updated_at", .date 99)],
         [("_id", .num 2), ("status", .str "pending")]]) ∧
    docMatches (fun _ _ => false)
      [("_id", JSVal.num 1), ("status", JSVal.str "pending")]
      [("status", .eqv (.str "pending"))] = true ∧
    docMatches (fun _ _ => false)
      [("_id", JSVal.num 2), ("status", JSVal.str "pending")]
      [("status", .eqv (.str "pending"))] = true ∧
    sqlToMongoQuery (strL "UPDATE orders SET status = ? WHERE status = ?")
      [.str "pending", .str "shipped"] = some [("status", .eqv (.str "pending"))] := by
  refine ⟨by decide, by decide, by decide, by decide⟩

/-- C5 counterexample: identifier normalization is guarded by JavaScript
truthiness of `doc._id`, so a document whose native identifier is the
falsy value `0` (insertable through the adapter's own INSERT path) is
returned by `getAsync` with its `_id` field intact and no `id` field,
refuting the for-every-result claim. -/
theorem c5_counterexample :
    getAsync (strL "SELECT * FROM products WHERE id = ?") [.num 0]
      [[("_id", .num 0), ("name", .str "x")]] (fun _ _ => false) =
      some (.row (some [("_id", .num 0), ("name", .str "x")])) ∧
    assocGet [("_id", JSVal.num 0), ("name", JSVal.str "x")] "_id" = some (.num 0) ∧
    assocGet [("_id", JSVal.num 0), ("name", JSVal.str "x")] "id" = none := by
  refine ⟨by decide, by decide, by decide⟩

/-- C8 counterexample: with more placeholders than parameters, the
equality condition `active = ?` does not bind its field to an absent
value: the absent parameter is coerced by the `active` special case to the
present boolean `false`. -/
theorem c8_counterexample :
    whereClauseToQuery (strL "active = ?") [] =
      some [("active", FVal.eqv (.boolean false))] ∧
    FVal.eqv (.boolean false) ≠ FVal.eqv .undef ∧
    FVal.eqv (.boolean false) ≠ FVal.eqv .null := by
  refine ⟨by decide, by decide, by decide⟩

theorem assocGet_set_same {α : Type} (l : List (String × α)) (k : String) (v : α) :
    assocGet (assocSet l k v) k = some v := by
  induction l with
  | nil => simp [assocSet, assocGet]
  | cons kv rest ih =>
    by_cases h : kv.1 = k
    · simp [assocSet, h, assocGet]
    · simp only [assocSet, h, if_false]
      simpa [assocGet, List.find?, h] using ih

theorem assocGet_delKey_same {α : Type} (l : List (String × α)) (k : String) :
    assocGet (delKey l k) k = none := by
  induction l with
  | nil => simp [delKey, assocGet]
  | cons kv rest ih =>
    by_cases h : kv.1 = k
    · simpa [delKey, h] using ih
    · simpa [delKey, assocGet, List.find?, h] using ih

theorem assocGet_delKey_ne {α : Type} (l : List (String × α)) (k k2 : String)
    (h : k ≠ k2) : assocGet (delKey l k2) k = assocGet l k := by
  induction l with
  | nil => simp [delKey, assocGet]
  | cons kv rest ih =>
    by_cases h2 : kv.1 = k2
    · have hk : kv.1 ≠ k := by rw [h2]; exact fun e => h e.symm
      rw [show assocGet (kv :: rest) k = assocGet rest k by
        simp [assocGet, List.find?, hk]]
      rw [show delKey (kv :: rest) k2 = delKey rest k2 by simp [delKey, h2]]
      exact ih
    · rw [show delKey (kv :: rest) k2 = kv :: delKey rest k2 by simp [delKey, h2]]
      by_cases h3 : kv.1 = k
      · simp [assocGet, List.find?, h3]
      · rw [show assocGet (kv :: rest) k = assocGet rest k by
          simp [assocGet, List.find?, h3]]
        rw [show assocGet (kv :: delKey rest k2) k = assocGet (delKey rest k2) k by
          simp [assocGet, List.find?, h3]]
        exact ih

theorem getParam_oob (params : List JSVal) (i : Nat) (h : params.length ≤ i) :
    getParam params i = .undef := by
  unfold getParam
  rw [List.get?_eq_getElem?, List.getElem?_eq_none h]
  rfl

/-- C8 (amended): when the placeholder markers outrun the parameter list,
translation still completes (no thrown error) and each excess placeholder
reads the absent value `undefined`; a generic equality condition binds its
field to that absent value, an `id` equality binds `_id` to the absent
value, the special-cased `active` equality binds `false`, and a LIKE
condition with an absent pattern is dropped while still advancing the
parameter cursor. -/
theorem c8_excess_placeholders_read_undefined
    (c : List Char) (f : List Char) (params : List JSVal) (st : Filter × Nat)
    (hoob : params.length ≤ st.2) :
    ((eqMatch (trimL c) = some f → String.mk f ≠ "id" → String.mk f ≠ "active" →
      procCond params st c = some (assocSet st.1 (String.mk f) (.eqv .undef), st.2 + 1)) ∧
     (eqMatch (trimL c) = some f → String.mk f = "id" →
      procCond params st c = some (assocSet st.1 "_id" (.eqv .undef), st.2 + 1)) ∧
     (eqMatch (trimL c) = some f → String.mk f = "active" →
      procCond params st c = some (assocSet st.1 "active" (.eqv (.boolean false)), st.2 + 1)) ∧
     (eqMatch (trimL c) = none → likeMatch (trimL c) = some f →
      procCond params st c = some (st.1, st.2 + 1))) := by
  have hv : getParam params st.2 = .undef := getParam_oob params st.2 hoob
  refine ⟨?_, ?_, ?_, ?_⟩
  · intro heq hid hact
    simp [procCond, heq, hv, applyEq, hid, hact]
  · intro heq hid
    have : idAssign .undef = .undef := by decide
    simp [procCond, heq, hv, applyEq, hid, this]
  · intro heq hact
    have hne : String.mk f ≠ "id" := by rw [hact]; decide
    have : activeCoerce .undef = .boolean false := by decide
    simp [procCond, heq, hv, applyEq, hne, hact, this]
  · intro heq hlike
    simp [procCond, heq, hlike, hv, truthy]

/-- C8 witness: instantiation at `name = ?`, `id = ?`, `active = ?` and
`name LIKE ?` with the empty parameter list. -/
theorem c8_excess_placeholders_read_undefined_witness :
    procCond [] ([], 0) (strL "name = ?") = some ([("name", .eqv .undef)], 1) ∧
    procCond [] ([], 0) (strL "id = ?") = some ([("_id", .eqv .undef)], 1) ∧
    procCond [] ([], 0) (strL "active = ?") =
      some ([("active", .eqv (.boolean false))], 1) ∧
    procCond [] ([], 0) (strL "name LIKE ?") = some ([], 1) := by
  refine ⟨?_, ?_, ?_, ?_⟩
  · exact ((c8_excess_placeholders_read_undefined (strL "name = ?") (strL "name")
      [] ([], 0) (by decide)).1 (by decide) (by decide) (by decide)).trans (by decide)
  · exact ((c8_excess_placeholders_read_undefined (strL "id = ?") (strL "id")
      [] ([], 0) (by decide)).2.1 (by decide) (by decide)).trans (by decide)
  · exact ((c8_excess_placeholders_read_undefined (strL "active = ?") (strL "active")
      [] ([], 0) (by decide)).2.2.1 (by decide) (by decide)).trans (by decide)
  · exact ((c8_excess_placeholders_read_undefined (strL "name LIKE ?") (strL "name")
      [] ([], 0) (by decide)).2.2.2 (by decide) (by decide)).trans (by decide)

theorem mem_of_findOne {rm : RegexEngine} {coll : Coll} {q : Filter} {d : Doc}
    (h : findOne rm coll q = some d) : d ∈ coll :=
  List.mem_of_find?_eq_some h

/-- C5 (amended): every document returned by the document adapter's
`getAsync` or `allAsync` is the normalization of a stored document, and
normalization does republish the native identifier as `id` and remove
`_id` — but only when the native identifier is truthy (see the
counterexample for the falsy case). -/
theorem c5_id_normalization :
    (∀ (sql : List Char) (params : List JSVal) (coll : Coll) (rm : RegexEngine) (r : Doc),
      getAsync sql params coll rm = some (.row (some r)) →
      ∃ d, d ∈ coll ∧ r = normalizeDoc d) ∧
    (∀ (sql : List Char) (params : List JSVal) (coll : Coll) (rm : RegexEngine)
      (rs : List Doc), allAsync sql params coll rm = some rs →
      ∀ r ∈ rs, ∃ d, d ∈ coll ∧ r = normalizeDoc d) ∧
    (∀ (d : Doc) (v : JSVal), assocGet d "_id" = some v → truthy v = true →
      assocGet (normalizeDoc d) "id" = some v ∧
      assocGet (normalizeDoc d) "_id" = none) := by
  refine ⟨?_, ?_, ?_⟩
  · intro sql params coll rm r h
    unfold getAsync at h
    split at h
    · split at h <;> try exact Option.noConfusion h
      split at h <;> try exact Option.noConfusion h
      simp at h
    · split at h <;> try exact Option.noConfusion h
      split at h <;> try exact Option.noConfusion h
      simp only [Option.some.injEq, GetResult.row.injEq] at h
      rcases Option.map_eq_some'.mp h with ⟨d0, hf, hr⟩
      exact ⟨d0, mem_of_findOne hf, hr.symm⟩
  · intro sql params coll rm rs h r hr
    unfold allAsync at h
    split at h <;> try exact Option.noConfusion h
    split at h <;> try exact Option.noConfusion h
    simp only [Option.some.injEq] at h
    subst h
    rcases List.mem_map.mp hr with ⟨d, hd, hnd⟩
    refine ⟨d, ?_, hnd.symm⟩
    unfold applySort at hd
    split at hd
    · split at hd
      · exact List.mem_of_mem_filter ((List.mem_mergeSort).mp hd)
      · exact List.mem_of_mem_filter hd
    · exact List.mem_of_mem_filter hd
  · intro d v hget htr
    unfold normalizeDoc
    rw [hget]
    simp only [htr, if_true]
    refine ⟨?_, assocGet_delKey_same _ _⟩
    rw [assocGet_delKey_ne _ "id" "_id" (by decide)]
    exact assocGet_set_same d "id" v

/-- C5 witness: a truthy stored identifier is republished as `id` with no
`_id` on the result of a concrete `getAsync`. -/
theorem c5_id_normalization_witness :
    (∃ d, d ∈ ([[("_id", JSVal.num 7), ("name", JSVal.str "x")]] : Coll) ∧
      ([("name", JSVal.str "x"), ("id", JSVal.num 7)] : Doc) = normalizeDoc d) ∧
    assocGet (normalizeDoc [("_id", JSVal.num 7), ("name", JSVal.str "x")]) "id" =
      some (.num 7) ∧
    assocGet (normalizeDoc [("_id", JSVal.num 7), ("name", JSVal.str "x")]) "_id" =
      none := by
  refine ⟨?_, ?_⟩
  · exact c5_id_normalization.1 (strL "SELECT * FROM products WHERE id = ?")
      [.num 7] [[("_id", JSVal.num 7), ("name", JSVal.str "x")]] (fun _ _ => false)
      [("name", JSVal.str "x"), ("id", JSVal.num 7)] (by decide)
  · exact c5_id_normalization.2.2 [("_id", JSVal.num 7), ("name", JSVal.str "x")]
      (.num 7) (by decide) (by decide)

/-- A WHERE condition is recognized when, after trimming, one of the three
supported regex shapes matches it. -/
def recognizedCond (c : List Char) : Bool :=
  (eqMatch (trimL c)).isSome || (likeMatch (trimL c)).isSome ||
    (orLikeMatch (trimL c)).isSome

theorem procCond_unrecognized {c : List Char} (params : List JSVal) (st : Filter × Nat)
    (h : recognizedCond c = false) : procCond params st c = some st := by
  unfold recognizedCond at h
  have he : eqMatch (trimL c) = none := by
    cases he2 : eqMatch (trimL c) with
    | none => rfl
    | some _ => rw [he2] at h; simp at h
  have hl : likeMatch (trimL c) = none := by
    cases hl2 : likeMatch (trimL c) with
    | none => rfl
    | some _ => rw [hl2] at h; simp at h
  have ho : orLikeMatch (trimL c) = none := by
    cases ho2 : orLikeMatch (trimL c) with
    | none => rfl
    | some _ => rw [ho2] at h; simp at h
  simp [procCond, he, hl, ho]

/-- C4: translating a WHERE clause never throws on an unrecognized
AND-separated condition: the condition loop gives the same result (same
filter, same parameter cursor, same thrown-or-not outcome) as running it
on the recognized conditions alone; a clause of only unrecognized
conditions completes with the untouched state, and the whole-clause
translation equals the translation of the recognized conditions alone. -/
theorem c4_unrecognized_conditions_dropped :
    (∀ (params : List JSVal) (st : Filter × Nat) (conds : List (List Char)),
      parseCondsFrom params st conds =
        parseCondsFrom params st (conds.filter recognizedCond)) ∧
    (∀ (params : List JSVal) (st : Filter × Nat) (conds : List (List Char)),
      (∀ c ∈ conds, recognizedCond c = false) →
      parseCondsFrom params st conds = some st) ∧
    (∀ (w : List Char) (params : List JSVal),
      whereClauseToQuery w params =
        (parseCondsFrom params ([], 0)
          ((splitAND (stripAll w)).filter recognizedCond)).map (fun st => st.1)) := by
  have main : ∀ (params : List JSVal) (conds : List (List Char)) (st : Filter × Nat),
      parseCondsFrom params st conds =
        parseCondsFrom params st (conds.filter recognizedCond) := by
    intro params conds
    induction conds with
    | nil => intro st; rfl
    | cons c cs ih =>
      intro st
      by_cases h : recognizedCond c
      · rw [show (c :: cs).filter recognizedCond = c :: cs.filter recognizedCond by
          simp [List.filter, h]]
        simp only [parseCondsFrom]
        match procCond params st c with
        | none => rfl
        | some st2 => exact ih st2
      · rw [show (c :: cs).filter recognizedCond = cs.filter recognizedCond by
          simp [List.filter, h]]
        simp only [parseCondsFrom,
          procCond_unrecognized params st (Bool.eq_false_iff.mpr h)]
        exact ih st
  refine ⟨fun params st conds => main params conds st, ?_, ?_⟩
  · intro params st conds hall
    rw [main params conds st,
      List.filter_eq_nil_iff.mpr (fun c hc => by simp [hall c hc])]
    rfl
  · intro w params
    unfold whereClauseToQuery
    rw [main params (splitAND (stripAll w)) ([], 0)]

/-- C4 witness: a clause mixing the unrecognized `price > ?` with a
recognized equality yields exactly the filter of the recognized condition
alone (the unrecognized one is dropped without error). -/
theorem c4_unrecognized_conditions_dropped_witness :
    parseCondsFrom [JSVal.num 1] ([], 0)
        [strL "price > ?", strL "active = ?"] =
      parseCondsFrom [JSVal.num 1] ([], 0)
        (([strL "price > ?", strL "active = ?"]).filter recognizedCond) ∧
    parseCondsFrom [JSVal.num 1] ([], 0) [strL "price > ?", strL "status <> ?"] =
      some ([], 0) := by
  constructor
  · exact c4_unrecognized_conditions_dropped.1 [JSVal.num 1] ([], 0)
      [strL "price > ?", strL "active = ?"]
  · exact c4_unrecognized_conditions_dropped.2.1 [JSVal.num 1] ([], 0)
      [strL "price > ?", strL "status <> ?"] (by decide)

/-- Whether a string is empty or starts with a non-whitespace character
(first condition of a well-formed condition list). -/
def headNotSpace : List Char → Bool
  | [] => true
  | c :: _ => !jsSpace c

theorem dropWhile_headNotSpace {w : List Char} (hw : headNotSpace w = true) :
    w.dropWhile jsSpace = w := by
  cases w with
  | nil => rfl
  | cons c cs =>
    simp only [headNotSpace, Bool.not_eq_true'] at hw
    simp [List.dropWhile, hw]

theorem stripOneAt_1eq1 (w : List Char) (hw : headNotSpace w = true) :
    stripOneAt (strL "1=1 AND " ++ w) = some w := by
  rw [show strL "1=1 AND " ++ w =
    '1' :: '=' :: '1' :: ' ' :: 'A' :: 'N' :: 'D' :: ' ' :: w from rfl]
  simp [stripOneAt, List.dropWhile, jsSpace, startsWithCI, ciEq, lowerChar,
    dropWhile_headNotSpace hw]

theorem stripAll_1eq1 (w : List Char) (hw : headNotSpace w = true) :
    stripAll (strL "1=1 AND " ++ w) = stripAll w := by
  unfold stripAll
  rw [show (strL "1=1 AND " ++ w).length = (7 + w.length) + 1 by
    simp [strL]; omega]
  rw [show strL "1=1 AND " ++ w = '1' :: (strL "=1 AND " ++ w) from rfl]
  simp only [stripAllF]
  rw [show ('1' : Char) :: (strL "=1 AND " ++ w) = strL "1=1 AND " ++ w from rfl,
    stripOneAt_1eq1 w hw]
  exact stripAllF_congr _ (by omega) (Nat.le_refl _)

/-- C7: for any condition text starting with a non-space character and any
parameter list, a WHERE clause `1=1 AND C` translates to exactly the same
filter as the clause `C` alone: the pseudo-condition is erased before
splitting, consumes no parameter, and preserves the remaining conditions
in order. -/
theorem c7_1eq1_stripping (w : List Char) (params : List JSVal)
    (hw : headNotSpace w = true) :
    whereClauseToQuery (strL "1=1 AND " ++ w) params = whereClauseToQuery w params := by
  unfold whereClauseToQuery
  rw [stripAll_1eq1 w hw]

/-- C7 witness: `1=1 AND x = ?` and `x = ?` with one parameter give the
same filter. -/
theorem c7_1eq1_stripping_witness :
    whereClauseToQuery (strL "1=1 AND x = ?") [JSVal.num 3] =
      whereClauseToQuery (strL "x = ?") [JSVal.num 3] :=
  c7_1eq1_stripping (strL "x = ?") [JSVal.num 3] (by decide)

theorem startsWith_head (k : Char) (ks l : List Char)
    (h : startsWithP (k :: ks) l = true) : ∃ rest, l = k :: rest := by
  cases l with
  | nil => simp [startsWithP] at h
  | cons c cs =>
    simp only [startsWithP, Bool.and_eq_true, decide_eq_true_eq] at h
    exact ⟨cs, by rw [h.1]⟩

theorem updateFirst_append (rm : RegexEngine) (q : Filter) (upd : Doc) :
    ∀ (pre : Coll) (d : Doc) (post : Coll),
    (∀ d2 ∈ pre, docMatches rm d2 q = false) → docMatches rm d q = true →
    updateFirst rm q upd (pre ++ d :: post) =
      ((if applySet d upd = d then 0 else 1), pre ++ applySet d upd :: post) := by
  intro pre
  induction pre with
  | nil =>
    intro d post hpre hd
    simp [updateFirst, hd]
  | cons p ps ih =>
    intro d post hpre hd
    have hp : docMatches rm p q = false := hpre p (by simp)
    simp only [List.cons_append, updateFirst, hp, Bool.false_eq_true, if_false,
      List.append_eq]
    rw [ih d post (fun d2 h2 => hpre d2 (by simp [h2])) hd]

theorem updateFirst_no_match (rm : RegexEngine) (q : Filter) (upd : Doc) :
    ∀ (coll : Coll), (∀ d ∈ coll, docMatches rm d q = false) →
    updateFirst rm q upd coll = (0, coll) := by
  intro coll
  induction coll with
  | nil => intro h; rfl
  | cons d ds ih =>
    intro h
    have hd : docMatches rm d q = false := h d (by simp)
    simp only [updateFirst, hd, Bool.false_eq_true, if_false]
    rw [ih (fun d2 h2 => h d2 (by simp [h2]))]

/-- C3 (amended): an UPDATE through the document adapter applies the
parsed new values (plus the refreshed update timestamp) to only the first
document matching the translated filter; every document before it (a
non-match) and after it — including further matching documents — is left
unchanged, and the reported change count is at most one. -/
theorem c3_update_first_match_only (sql : List Char) (params : List JSVal)
    (rm : RegexEngine) (now : Nat) (fresh : String)
    (pre : Coll) (d : Doc) (post : Coll) (upd0 : Doc) (q : Filter)
    (hu : startsWithP (strL "UPDATE") (ucase sql) = true)
    (hc : (getCollectionName sql).isSome = true)
    (hs : setAssignmentsOf sql params = some upd0)
    (hq : sqlToMongoQuery sql params = some q)
    (hpre : ∀ d2 ∈ pre, docMatches rm d2 q = false)
    (hd : docMatches rm d q = true) :
    runAsync sql params (pre ++ d :: post) rm now fresh =
      some ({ lastID := .null,
              changes := if applySet d (assocSet upd0 "updated_at" (.date now)) = d
                         then 0 else 1 },
        pre ++ applySet d (assocSet upd0 "updated_at" (.date now)) :: post) := by
  obtain ⟨rest, hrest⟩ := startsWith_head 'U' (strL "PDATE") _ hu
  have hni : startsWithP (strL "INSERT") (ucase sql) = false := by rw [hrest]; rfl
  unfold runAsync
  match hg : getCollectionName sql with
  | none => rw [hg] at hc; simp at hc
  | some cn =>
    simp only [hni, Bool.false_eq_true, if_false, hu, if_true]
    unfold runUpdate
    rw [hs, hq]
    simp only []
    rw [updateFirst_append rm q _ pre d post hpre hd]

/-- C3 amended witness: with two matching documents only the first is
rewritten; the second keeps its old values. -/
theorem c3_update_first_match_only_witness :
    runAsync (strL "UPDATE orders SET status = ? WHERE status = ?")
      [.str "pending", .str "shipped"]
      ([] ++ [("_id", JSVal.num 1), ("status", JSVal.str "pending")] ::
        [[("_id", JSVal.num 2), ("status", JSVal.str "pending")]])
      (fun _ _ => false) 99 "f" =
      some ({ lastID := .null,
              changes := if applySet [("_id", JSVal.num 1), ("status", JSVal.str "pending")]
                  (assocSet [("status", JSVal.str "shipped")] "updated_at" (.date 99)) =
                  [("_id", JSVal.num 1), ("status", JSVal.str "pending")] then 0 else 1 },
        [] ++ applySet [("_id", JSVal.num 1), ("status", JSVal.str "pending")]
            (assocSet [("status", JSVal.str "shipped")] "updated_at" (.date 99)) ::
          [[("_id", JSVal.num 2), ("status", JSVal.str "pending")]]) :=
  c3_update_first_match_only (strL "UPDATE orders SET status = ? WHERE status = ?")
    [.str "pending", .str "shipped"] (fun _ _ => false) 99 "f"
    [] [("_id", JSVal.num 1), ("status", JSVal.str "pending")]
    [[("_id", JSVal.num 2), ("status", JSVal.str "pending")]]
    [("status", JSVal.str "shipped")] [("status", .eqv (.str "pending"))]
    (by decide) (by decide) (by decide) (by decide) (by decide) (by decide)

theorem deleteFirst_no_match (rm : RegexEngine) (q : Filter) :
    ∀ (coll : Coll), (∀ d ∈ coll, docMatches rm d q = false) →
    deleteFirst rm q coll = (0, coll) := by
  intro coll
  induction coll with
  | nil => intro h; rfl
  | cons d ds ih =>
    intro h
    have hd : docMatches rm d q = false := h d (by simp)
    simp only [deleteFirst, hd, Bool.false_eq_true, if_false]
    rw [ih (fun d2 h2 => h d2 (by simp [h2]))]

theorem deleteFirst_append (rm : RegexEngine) (q : Filter) :
    ∀ (pre : Coll) (d : Doc) (post : Coll),
    (∀ d2 ∈ pre, docMatches rm d2 q = false) → docMatches rm d q = true →
    deleteFirst rm q (pre ++ d :: post) = (1, pre ++ post) := by
  intro pre
  induction pre with
  | nil =>
    intro d post hpre hd
    simp [deleteFirst, hd]
  | cons p ps ih =>
    intro d post hpre hd
    have hp : docMatches rm p q = false := hpre p (by simp)
    simp only [List.cons_append, deleteFirst, hp, Bool.false_eq_true, if_false,
      List.append_eq]
    rw [ih d post (fun d2 h2 => hpre d2 (by simp [h2])) hd]

/-- C6: a DELETE through the document adapter removes exactly one document
when the translated filter matches at least one — the first match is
removed and every other document, including further matches, stays — and
removes nothing with a reported change count of zero when no document
matches. -/
theorem c6_delete_single_document :
    (∀ (sql : List Char) (params : List JSVal) (coll : Coll) (rm : RegexEngine)
      (now : Nat) (fresh : String) (q : Filter),
      startsWithP (strL "DELETE") (ucase sql) = true →
      (getCollectionName sql).isSome = true →
      sqlToMongoQuery sql params = some q →
      (∀ d ∈ coll, docMatches rm d q = false) →
      runAsync sql params coll rm now fresh = some ({ lastID := .null, changes := 0 }, coll)) ∧
    (∀ (sql : List Char) (params : List JSVal) (pre : Coll) (d : Doc) (post : Coll)
      (rm : RegexEngine) (now : Nat) (fresh : String) (q : Filter),
      startsWithP (strL "DELETE") (ucase sql) = true →
      (getCollectionName sql).isSome = true →
      sqlToMongoQuery sql params = some q →
      (∀ d2 ∈ pre, docMatches rm d2 q = false) →
      docMatches rm d q = true →
      runAsync sql params (pre ++ d :: post) rm now fresh =
        some ({ lastID := .null, changes := 1 }, pre ++ post)) := by
  constructor
  · intro sql params coll rm now fresh q hdel hc hq hnone
    obtain ⟨rest, hrest⟩ := startsWith_head 'D' (strL "ELETE") _ hdel
    have hni : startsWithP (strL "INSERT") (ucase sql) = false := by rw [hrest]; rfl
    have hnu : startsWithP (strL "UPDATE") (ucase sql) = false := by rw [hrest]; rfl
    unfold runAsync
    match hg : getCollectionName sql with
    | none => rw [hg] at hc; simp at hc
    | some cn =>
      simp only [hni, hnu, Bool.false_eq_true, if_false, hdel, if_true]
      unfold runDelete
      rw [hq]
      simp only []
      rw [deleteFirst_no_match rm q coll hnone]
  · intro sql params pre d post rm now fresh q hdel hc hq hpre hd
    obtain ⟨rest, hrest⟩ := startsWith_head 'D' (strL "ELETE") _ hdel
    have hni : startsWithP (strL "INSERT") (ucase sql) = false := by rw [hrest]; rfl
    have hnu : startsWithP (strL "UPDATE") (ucase sql) = false := by rw [hrest]; rfl
    unfold runAsync
    match hg : getCollectionName sql with
    | none => rw [hg] at hc; simp at hc
    | some cn =>
      simp only [hni, hnu, Bool.false_eq_true, if_false, hdel, if_true]
      unfold runDelete
      rw [hq]
      simp only []
      rw [deleteFirst_append rm q pre d post hpre hd]

/-- C6 witness: a DELETE whose filter matches two documents removes only
the first; one with no match removes nothing and reports zero changes. -/
theorem c6_delete_single_document_witness :
    runAsync (strL "DELETE FROM orders WHERE status = ?") [.str "pending"]
      ([] ++ [("_id", JSVal.num 1), ("status", JSVal.str "pending")] ::
        [[("_id", JSVal.num 2), ("status", JSVal.str "pending")]])
      (fun _ _ => false) 99 "f" =
      some ({ lastID := .null, changes := 1 },
        [] ++ [[("_id", JSVal.num 2), ("status", JSVal.str "pending")]]) ∧
    runAsync (strL "DELETE FROM orders WHERE status = ?") [.str "gone"]
      [[("_id", JSVal.num 1), ("status", JSVal.str "pending")]]
      (fun _ _ => false) 99 "f" =
      some ({ lastID := .null, changes := 0 },
        [[("_id", JSVal.num 1), ("status", JSVal.str "pending")]]) :=
  ⟨c6_delete_single_document.2 (strL "DELETE FROM orders WHERE status = ?")
      [.str "pending"] [] [("_id", JSVal.num 1), ("status", JSVal.str "pending")]
      [[("_id", JSVal.num 2), ("status", JSVal.str "pending")]]
      (fun _ _ => false) 99 "f" [("status", .eqv (.str "pending"))]
      (by decide) (by decide) (by decide) (by decide) (by decide),
    c6_delete_single_document.1 (strL "DELETE FROM orders WHERE status = ?")
      [.str "gone"] [[("_id", JSVal.num 1), ("status", JSVal.str "pending")]]
      (fun _ _ => false) 99 "f" [("status", .eqv (.str "gone"))]
      (by decide) (by decide) (by decide) (by decide)⟩

theorem docMatches_empty (rm : RegexEngine) (d : Doc) : docMatches rm d [] = true := rfl

theorem findOne_empty_filter (rm : RegexEngine) (coll : Coll) :
    findOne rm coll [] = coll.head? := by
  cases coll with
  | nil => rfl
  | cons d ds => simp [findOne, List.find?, docMatches]

theorem filter_empty_filter (rm : RegexEngine) (coll : Coll) :
    coll.filter (fun d => docMatches rm d []) = coll :=
  List.filter_eq_self.mpr (fun d _ => docMatches_empty rm d)

/-- C10: clause detection in the document path is case-sensitive even
though clause parsing is case-insensitive.  For any query string without
the uppercase substring `WHERE` (for example the keyword written `where`):
the translator yields the empty filter and never throws; the empty filter
matches every document; `getAsync` returns (the normalization of) the very
first stored document and `allAsync` returns all documents (possibly
sorted); a DELETE removes the collection's first document with no error;
an UPDATE with a parseable SET clause also completes without error.
Likewise, a sort is applied only when the uppercase substring `ORDER BY`
is present: without it `allAsync` returns the matches in stored order. -/
theorem c10_case_sensitive_clause_detection :
    (∀ (sql : List Char) (params : List JSVal),
      containsSub (strL "WHERE") sql = false →
      sqlToMongoQuery sql params = some []) ∧
    (∀ (rm : RegexEngine) (d : Doc), docMatches rm d [] = true) ∧
    (∀ (sql : List Char) (params : List JSVal) (coll : Coll) (rm : RegexEngine),
      containsSub (strL "WHERE") sql = false →
      containsSub (strL "SELECT COUNT(*)") (ucase sql) = false →
      (getCollectionName sql).isSome = true →
      getAsync sql params coll rm = some (.row (coll.head?.map normalizeDoc))) ∧
    (∀ (sql : List Char) (params : List JSVal) (coll : Coll) (rm : RegexEngine),
      containsSub (strL "WHERE") sql = false →
      (getCollectionName sql).isSome = true →
      ∃ l, allAsync sql params coll rm = some l ∧ l.Perm (coll.map normalizeDoc)) ∧
    (∀ (sql : List Char) (params : List JSVal) (coll : Coll) (rm : RegexEngine)
      (q : Filter), (getCollectionName sql).isSome = true →
      sqlToMongoQuery sql params = some q →
      containsSub (strL "ORDER BY") sql = false →
      allAsync sql params coll rm =
        some ((coll.filter (fun d => docMatches rm d q)).map normalizeDoc)) ∧
    (∀ (sql : List Char) (params : List JSVal) (coll : Coll) (rm : RegexEngine)
      (now : Nat) (fresh : String),
      containsSub (strL "WHERE") sql = false →
      startsWithP (strL "DELETE") (ucase sql) = true →
      (getCollectionName sql).isSome = true →
      runAsync sql params coll rm now fresh =
        some ({ lastID := .null, changes := if coll.isEmpty then 0 else 1 }, coll.tail)) ∧
    (∀ (sql : List Char) (params : List JSVal) (coll : Coll) (rm : RegexEngine)
      (now : Nat) (fresh : String),
      containsSub (strL "WHERE") sql = false →
      startsWithP (strL "UPDATE") (ucase sql) = true →
      (getCollectionName sql).isSome = true →
      (setAssignmentsOf sql params).isSome = true →
      (runAsync sql params coll rm now fresh).isSome = true) := by
  have h1 : ∀ (sql : List Char) (params : List JSVal),
      containsSub (strL "WHERE") sql = false → sqlToMongoQuery sql params = some [] := by
    intro sql params h
    unfold sqlToMongoQuery
    rw [h]
    rfl
  refine ⟨h1, fun rm d => rfl, ?_, ?_, ?_, ?_, ?_⟩
  · intro sql params coll rm hw hcount hc
    unfold getAsync
    rw [hcount]
    simp only [Bool.false_eq_true, if_false]
    match hg : getCollectionName sql with
    | none => rw [hg] at hc; simp at hc
    | some cn =>
      rw [h1 sql params hw]
      simp only []
      rw [findOne_empty_filter]
  · intro sql params coll rm hw hc
    unfold allAsync
    match hg : getCollectionName sql with
    | none => rw [hg] at hc; simp at hc
    | some cn =>
      rw [h1 sql params hw]
      simp only [Option.some.injEq]
      refine ⟨_, rfl, ?_⟩
      rw [filter_empty_filter]
      unfold applySort
      split
      · split
        · exact (List.mergeSort_perm coll _).map normalizeDoc
        · exact List.Perm.refl _
      · exact List.Perm.refl _
  · intro sql params coll rm q hc hq hno
    unfold allAsync
    match hg : getCollectionName sql with
    | none => rw [hg] at hc; simp at hc
    | some cn =>
      rw [hq]
      simp only []
      unfold applySort
      rw [hno]
      simp only [Bool.false_eq_true, if_false]
  · intro sql params coll rm now fresh hw hdel hc
    obtain ⟨rest, hrest⟩ := startsWith_head 'D' (strL "ELETE") _ hdel
    have hni : startsWithP (strL "INSERT") (ucase sql) = false := by rw [hrest]; rfl
    have hnu : startsWithP (strL "UPDATE") (ucase sql) = false := by rw [hrest]; rfl
    unfold runAsync
    match hg : getCollectionName sql with
    | none => rw [hg] at hc; simp at hc
    | some cn =>
      simp only [hni, hnu, Bool.false_eq_true, if_false, hdel, if_true]
      unfold runDelete
      rw [h1 sql params hw]
      simp only []
      cases coll with
      | nil => rfl
      | cons d ds => simp [deleteFirst, docMatches]
  · intro sql params coll rm now fresh hw hup hc hset
    obtain ⟨rest, hrest⟩ := startsWith_head 'U' (strL "PDATE") _ hup
    have hni : startsWithP (strL "INSERT") (ucase sql) = false := by rw [hrest]; rfl
    unfold runAsync
    match hg : getCollectionName sql with
    | none => rw [hg] at hc; simp at hc
    | some cn =>
      simp only [hni, Bool.false_eq_true, if_false, hup, if_true]
      unfold runUpdate
      match hsa : setAssignmentsOf sql params with
      | none => rw [hsa] at hset; simp at hset
      | some upd0 =>
        rw [h1 sql params hw]
        simp only [Option.isSome_some]

/-- C10 witness: a lowercase `where` places no restriction — the filter is
empty, `getAsync` returns the first document, and a lowercase-where DELETE
removes the first document of the collection without error. -/
theorem c10_case_sensitive_clause_detection_witness :
    sqlToMongoQuery (strL "SELECT * FROM products where active = ?") [JSVal.num 1] =
      some [] ∧
    getAsync (strL "SELECT * FROM products where active = ?") [JSVal.num 1]
      [[("_id", JSVal.num 1), ("active", JSVal.boolean false)],
       [("_id", JSVal.num 2), ("active", JSVal.boolean true)]] (fun _ _ => false) =
      some (.row (([[("_id", JSVal.num 1), ("active", JSVal.boolean false)],
        [("_id", JSVal.num 2), ("active", JSVal.boolean true)]] : Coll).head?.map
          normalizeDoc)) ∧
    runAsync (strL "delete from orders where status = ?") [JSVal.str "pending"]
      [[("_id", JSVal.num 1)], [("_id", JSVal.num 2)]] (fun _ _ => false) 99 "f" =
      some ({ lastID := .null,
              changes := if ([[("_id", JSVal.num 1)], [("_id", JSVal.num 2)]] : Coll).isEmpty
                         then 0 else 1 },
        ([[("_id", JSVal.num 1)], [("_id", JSVal.num 2)]] : Coll).tail) :=
  ⟨c10_case_sensitive_clause_detection.1 _ [JSVal.num 1] (by decide),
   c10_case_sensitive_clause_detection.2.2.1 _ [JSVal.num 1] _ (fun _ _ => false)
     (by decide) (by decide) (by decide),
   c10_case_sensitive_clause_detection.2.2.2.2.2.1 _ [JSVal.str "pending"] _
     (fun _ _ => false) 99 "f" (by decide) (by decide) (by decide)⟩

theorem strL_WHERE_eq : strL "WHERE" = ['W', 'H', 'E', 'R', 'E'] := rfl

theorem strL_selP_eq : strL "SELECT * FROM products WHERE " =
    ['S', 'E', 'L', 'E', 'C', 'T', ' ', '*', ' ', 'F', 'R', 'O', 'M', ' ',
     'p', 'r', 'o', 'd', 'u', 'c', 't', 's', ' ', 'W', 'H', 'E', 'R', 'E', ' '] := rfl

theorem scanFor_append_none {α : Type} (f : List Char → Option α) :
    ∀ (p rest : List Char), (∀ j, j < p.length → f (p.drop j ++ rest) = none) →
    scanFor f (p ++ rest) = scanFor f rest := by
  intro p
  induction p with
  | nil => intro rest h; rfl
  | cons c p2 ih =>
    intro rest h
    have h0 : f (c :: (p2 ++ rest)) = none := by
      have := h 0 (by simp)
      simpa using this
    rw [show (c :: p2) ++ rest = c :: (p2 ++ rest) from rfl]
    simp only [scanFor, h0]
    exact ih rest (fun j hj => by
      have := h (j + 1) (by simpa using Nat.succ_lt_succ hj)
      simpa using this)

theorem containsSub_append_startsWith (pat : List Char) :
    ∀ (x y : List Char), startsWithP pat y = true → containsSub pat (x ++ y) = true := by
  intro x
  induction x with
  | nil =>
    intro y h
    cases y with
    | nil => simpa [containsSub] using h
    | cons c cs => simp [containsSub, h]
  | cons c x2 ih =>
    intro y h
    rw [show (c :: x2) ++ y = c :: (x2 ++ y) from rfl]
    simp [containsSub, ih y h]

theorem startsWithCI_append_long (kw : List Char) :
    ∀ (x y : List Char), kw.length ≤ x.length →
    startsWithCI kw (x ++ y) = startsWithCI kw x := by
  induction kw with
  | nil => intro x y h; rfl
  | cons p ps ih =>
    intro x y h
    cases x with
    | nil => simp at h
    | cons c cs =>
      rw [show (c :: cs) ++ y = c :: (cs ++ y) from rfl]
      simp only [startsWithCI]
      rw [ih cs y (by simpa using h)]

theorem startsWithCI_shorter_false (kw : List Char) :
    ∀ (x : List Char), x.length < kw.length → startsWithCI kw x = false := by
  induction kw with
  | nil => intro x h; simp at h
  | cons p ps ih =>
    intro x h
    cases x with
    | nil => rfl
    | cons c cs =>
      simp only [startsWithCI]
      rw [ih cs (by simpa using h)]
      simp

theorem startsWithCI_cross_space (kw : List Char) (hkw : ∀ c ∈ kw, ciEq c ' ' = false) :
    ∀ (x s2 : List Char), x.length < kw.length →
    startsWithCI kw (x ++ ' ' :: s2) = false := by
  intro x
  induction x generalizing kw with
  | nil =>
    intro s2 h
    cases kw with
    | nil => simp at h
    | cons p ps =>
      simp only [List.nil_append, startsWithCI]
      rw [hkw p (by simp)]
      simp
  | cons a x2 ih =>
    intro s2 h
    cases kw with
    | nil => simp at h
    | cons p ps =>
      rw [show (a :: x2) ++ ' ' :: s2 = a :: (x2 ++ ' ' :: s2) from rfl]
      simp only [startsWithCI]
      rw [ih ps (fun c hc => hkw c (by simp [hc])) s2 (by simpa using h)]
      simp

theorem wsRunL_le_length (b : List Char) : wsRunL b ≤ b.length := by
  unfold wsRunL
  exact (List.takeWhile_prefix (p := jsSpace)).length_le

theorem wsRunL_append_of_lt (b y : List Char) (h : wsRunL b < b.length) :
    wsRunL (b ++ y) = wsRunL b := by
  induction b with
  | nil => simp [wsRunL] at h
  | cons c cs ih =>
    by_cases hc : jsSpace c
    · have h2 : wsRunL cs < cs.length := by
        unfold wsRunL at h ⊢
        simp [List.takeWhile, hc] at h
        omega
      unfold wsRunL at ih ⊢
      rw [show (c :: cs) ++ y = c :: (cs ++ y) from rfl]
      simp only [List.takeWhile, hc, List.length_cons]
      rw [ih h2]
    · unfold wsRunL
      rw [show (c :: cs) ++ y = c :: (cs ++ y) from rfl]
      simp [List.takeWhile, hc]

theorem drop_append_of_le (n : Nat) : ∀ (b y : List Char), n ≤ b.length →
    (b ++ y).drop n = b.drop n ++ y := by
  induction n with
  | zero => intro b y h; simp
  | succ m ih =>
    intro b y h
    cases b with
    | nil => simp at h
    | cons c cs =>
      rw [show (c :: cs) ++ y = c :: (cs ++ y) from rfl]
      simp only [List.drop_succ_cons]
      exact ih cs y (by simpa using h)

theorem lazyCap_append (stops : List (List Char)) (suffix : List Char)
    (hsuf : stopsAt stops suffix = true) :
    ∀ (w acc : List Char),
      (∀ c ∈ w, dotOK c = true) →
      (∀ j, 0 < j → j < w.length → stopsAt stops (w.drop j ++ suffix) = false) →
      ((acc ≠ [] ∧ w ≠ []) → stopsAt stops (w ++ suffix) = false) →
      ¬(acc = [] ∧ w = []) →
      lazyCap stops acc (w ++ suffix) = some (acc.reverse ++ w) := by
  intro w
  induction w with
  | nil =>
    intro acc hdot hstops hstop0 hne
    have hacc : acc ≠ [] := fun e => hne ⟨e, rfl⟩
    rw [List.nil_append, List.append_nil]
    cases suffix with
    | nil =>
      simp only [lazyCap]
      rw [if_neg (by simpa using hacc)]
    | cons c cs =>
      simp only [lazyCap]
      rw [if_pos]
      simp only [Bool.and_eq_true, Bool.not_eq_true']
      exact ⟨by simpa using hacc, hsuf⟩
  | cons a w2 ih =>
    intro acc hdot hstops hstop0 hne
    rw [show (a :: w2) ++ suffix = a :: (w2 ++ suffix) from rfl]
    simp only [lazyCap]
    have hcond : (!acc.isEmpty && stopsAt stops (a :: (w2 ++ suffix))) = false := by
      cases hacc : acc with
      | nil => simp
      | cons x xs =>
        have := hstop0 ⟨by simp [hacc], by simp⟩
        rw [show a :: (w2 ++ suffix) = (a :: w2) ++ suffix from rfl, this]
        simp
    rw [hcond]
    simp only [Bool.false_eq_true, if_false]
    rw [if_pos (hdot a (by simp))]
    rw [ih (a :: acc) (fun c hc => hdot c (by simp [hc]))
      (fun j hj hjlen => by
        have := hstops (j + 1) (by omega) (by simpa using Nat.succ_lt_succ hjlen)
        simpa using this)
      (fun hpair => by
        have h1 : 0 < 1 := by omega
        have h2 : 1 < (a :: w2).length := by
          simp only [List.length_cons]
          have : w2 ≠ [] := hpair.2
          cases w2 with
          | nil => exact absurd rfl this
          | cons b bs => simp
        have := hstops 1 h1 h2
        simpa using this)
      (by simp)]
    simp

/-- Whether a string is nonempty and ends with a non-whitespace character. -/
def lastNotSpaceB (w : List Char) : Bool :=
  match w.getLast? with
  | some c => !jsSpace c
  | none => false

/-- The stop test restricted to a position inside the WHERE clause text:
after at least one whitespace character, more clause text follows and one
of the stop keywords begins there. -/
def innerStopAt (stops : List (List Char)) (b : List Char) : Bool :=
  wsRunL b ≠ 0 && (!(b.drop (wsRunL b)).isEmpty &&
    stops.any (fun kw => startsWithCI kw (b.drop (wsRunL b))))

/-- No inner position of the clause text looks like a stop. -/
def c9innerOK (stops : List (List Char)) : List Char → Bool
  | [] => true
  | _ :: cs => !innerStopAt stops cs && c9innerOK stops cs

/-- Side conditions under which a WHERE clause text is extracted exactly:
nonempty, no leading or trailing whitespace, no line terminators, and no
internal whitespace-then-ORDER/LIMIT stop point. -/
def c9good (w : List Char) : Bool :=
  headNotSpace w && !w.isEmpty && w.all dotOK && lastNotSpaceB w &&
    c9innerOK [strL "ORDER", strL "LIMIT"] w

theorem c9innerOK_drop {stops : List (List Char)} :
    ∀ {w : List Char}, c9innerOK stops w = true →
    ∀ j, 0 < j → innerStopAt stops (w.drop j) = false := by
  intro w
  induction w with
  | nil =>
    intro h j hj
    rw [List.drop_nil]
    simp [innerStopAt, wsRunL]
  | cons c cs ih =>
    intro h j hj
    simp only [c9innerOK, Bool.and_eq_true, Bool.not_eq_true'] at h
    match j, hj with
    | 1, _ => simpa using h.1
    | j + 2, _ =>
      rw [show (c :: cs).drop (j + 2) = cs.drop (j + 1) from rfl]
      exact ih h.2 (j + 1) (by omega)

theorem takeWhile_eq_self_all {p : Char → Bool} :
    ∀ {b : List Char}, b.takeWhile p = b → ∀ c ∈ b, p c = true := by
  intro b
  induction b with
  | nil => intro h c hc; simp at hc
  | cons x xs ih =>
    intro h c hc
    by_cases hx : p x
    · simp only [List.takeWhile, hx, List.cons.injEq, true_and] at h
      rcases List.mem_cons.mp hc with hc1 | hc2
      · rw [hc1]; exact hx
      · exact ih h c hc2
    · simp [List.takeWhile, hx] at h

theorem getLast?_drop_of_ne_nil {w : List Char} {j : Nat} (h : w.drop j ≠ []) :
    (w.drop j).getLast? = w.getLast? := by
  conv_rhs => rw [← List.take_append_drop j w]
  rw [List.getLast?_append]
  match hd : (w.drop j).getLast? with
  | some c => rfl
  | none => exact absurd (List.getLast?_eq_none_iff.mp hd) h

theorem all_space_getLast {b : List Char} (hne : b ≠ [])
    (hall : ∀ c ∈ b, jsSpace c = true) :
    ∃ c, b.getLast? = some c ∧ jsSpace c = true :=
  ⟨b.getLast hne, List.getLast?_eq_getLast b hne, hall _ (List.getLast_mem hne)⟩

theorem innerOK_no_stop (stops : List (List Char))
    (hkw : ∀ kw ∈ stops, ∀ c ∈ kw, ciEq c ' ' = false)
    (w : List Char) (suffix : List Char)
    (hsufshape : suffix = [] ∨ ∃ s2, suffix = ' ' :: s2)
    (hlast : lastNotSpaceB w = true)
    (hinner : c9innerOK stops w = true) :
    ∀ j, 0 < j → j < w.length → stopsAt stops (w.drop j ++ suffix) = false := by
  intro j hj hjlen
  have hbne : w.drop j ≠ [] := by
    rw [Ne, List.drop_eq_nil_iff]
    omega
  have hinstop : innerStopAt stops (w.drop j) = false := c9innerOK_drop hinner j hj
  match hb : w.drop j, hbne with
  | c :: b2, _ =>
    rw [hb] at hinstop
    rw [show (c :: b2) ++ suffix = c :: (b2 ++ suffix) from rfl]
    simp only [stopsAt]
    rw [show c :: (b2 ++ suffix) = (c :: b2) ++ suffix from rfl]
    by_cases hr : wsRunL (c :: b2) = (c :: b2).length
    · exfalso
      have hallsp : ∀ x ∈ (c :: b2), jsSpace x = true := by
        apply takeWhile_eq_self_all
        exact (List.takeWhile_prefix (p := jsSpace)).eq_of_length hr
      obtain ⟨x, hx1, hx2⟩ := all_space_getLast (b := c :: b2) (by simp) hallsp
      have hgl : w.getLast? = some x := by
        rw [← getLast?_drop_of_ne_nil (j := j) (by rw [hb]; simp), hb, hx1]
      unfold lastNotSpaceB at hlast
      rw [hgl] at hlast
      simp only [Bool.not_eq_true'] at hlast
      rw [hlast] at hx2
      exact Bool.false_ne_true hx2
    · have hrlt : wsRunL (c :: b2) < (c :: b2).length :=
        Nat.lt_of_le_of_ne (wsRunL_le_length _) hr
      rw [wsRunL_append_of_lt _ _ hrlt, drop_append_of_le _ _ _ (Nat.le_of_lt hrlt)]
      by_cases hws : wsRunL (c :: b2) = 0
      · simp [hws]
      · have hbd : (c :: b2).drop (wsRunL (c :: b2)) ≠ [] := by
          rw [Ne, List.drop_eq_nil_iff]
          omega
        have hA : (decide (wsRunL (c :: b2) ≠ 0)) = true := by
          simp only [ne_eq, decide_not, Bool.not_eq_true', decide_eq_false_iff_not]
          exact hws
        have hB : (!((c :: b2).drop (wsRunL (c :: b2))).isEmpty) = true := by
          simp only [Bool.not_eq_true']
          rw [List.isEmpty_eq_false]
          exact hbd
        have hany : stops.any
            (fun kw => startsWithCI kw ((c :: b2).drop (wsRunL (c :: b2)))) = false := by
          unfold innerStopAt at hinstop
          rw [hA, hB] at hinstop
          simpa using hinstop
        have hanyfalse := List.any_eq_false.mp hany
        have hgoal : stops.any
            (fun kw => startsWithCI kw ((c :: b2).drop (wsRunL (c :: b2)) ++ suffix)) = false := by
          rw [List.any_eq_false]
          intro kw hkwmem
          rcases Nat.lt_or_ge ((c :: b2).drop (wsRunL (c :: b2))).length kw.length with hlen | hlen
          · rcases hsufshape with he | ⟨s2, hs2⟩
            · rw [he, List.append_nil]
              simp [startsWithCI_shorter_false kw _ hlen]
            · rw [hs2]
              simp [startsWithCI_cross_space kw (hkw kw hkwmem) _ s2 hlen]
          · rw [startsWithCI_append_long kw _ suffix hlen]
            simpa using hanyfalse kw hkwmem
        rw [hgoal]
        simp

theorem wsRunL_cons_space {w suffix : List Char} (hne : w ≠ [])
    (hhead : headNotSpace w = true) : wsRunL (' ' :: (w ++ suffix)) = 1 := by
  match w, hne with
  | c :: w2, _ =>
    simp only [headNotSpace, Bool.not_eq_true'] at hhead
    rw [show (c :: w2) ++ suffix = c :: (w2 ++ suffix) from rfl]
    have h1 : jsSpace ' ' = true := rfl
    simp [wsRunL, List.takeWhile_cons, h1, hhead]

theorem kwCapAt_where (stops : List (List Char)) (w suffix : List Char)
    (hsuf : stopsAt stops suffix = true)
    (hne : w ≠ []) (hhead : headNotSpace w = true)
    (hdot : ∀ c ∈ w, dotOK c = true)
    (hstops : ∀ j, 0 < j → j < w.length → stopsAt stops (w.drop j ++ suffix) = false) :
    kwCapAt (strL "WHERE") stops (strL "WHERE " ++ (w ++ suffix)) = some w := by
  unfold kwCapAt
  rw [if_pos (by
    rw [strL_WHERE_eq, show strL "WHERE " ++ (w ++ suffix) =
      'W' :: 'H' :: 'E' :: 'R' :: 'E' :: ' ' :: (w ++ suffix) from rfl]
    simp [startsWithCI, ciEq, lowerChar])]
  show tryWS stops (wsRunL (' ' :: (w ++ suffix))) (' ' :: (w ++ suffix)) = some w
  rw [wsRunL_cons_space hne hhead]
  simp only [tryWS, List.drop_succ_cons, List.drop_zero]
  rw [lazyCap_append stops suffix hsuf w [] hdot hstops
    (fun h => absurd rfl h.1) (fun h => hne h.2)]
  simp

theorem strL_WHEREsp_eq : strL "WHERE " = ['W', 'H', 'E', 'R', 'E', ' '] := rfl

theorem strL_selPa_eq : strL "SELECT * FROM products " =
    ['S', 'E', 'L', 'E', 'C', 'T', ' ', '*', ' ', 'F', 'R', 'O', 'M', ' ',
     'p', 'r', 'o', 'd', 'u', 'c', 't', 's', ' '] := rfl

theorem whereClauseOf_selP (w suffix : List Char)
    (hsuf : stopsAt [strL "ORDER", strL "LIMIT"] suffix = true)
    (hne : w ≠ []) (hhead : headNotSpace w = true)
    (hdot : ∀ c ∈ w, dotOK c = true)
    (hstops : ∀ j, 0 < j → j < w.length →
      stopsAt [strL "ORDER", strL "LIMIT"] (w.drop j ++ suffix) = false) :
    whereClauseOf (strL "SELECT * FROM products WHERE " ++ (w ++ suffix)) = some w := by
  unfold whereClauseOf kwCap
  rw [show strL "SELECT * FROM products WHERE " ++ (w ++ suffix) =
    strL "SELECT * FROM products " ++ (strL "WHERE " ++ (w ++ suffix)) by
    simp [strL_selPa_eq, strL_selP_eq, strL_WHEREsp_eq]]
  rw [scanFor_append_none _ (strL "SELECT * FROM products ") _ (by
    intro j hj
    rw [strL_selPa_eq] at hj ⊢
    simp only [List.length_cons, List.length_nil] at hj
    interval_cases j <;>
      simp [kwCapAt, startsWithCI, ciEq, lowerChar, strL_WHERE_eq])]
  rw [show strL "WHERE " ++ (w ++ suffix) =
    'W' :: (strL "HERE " ++ (w ++ suffix)) from rfl]
  simp only [scanFor]
  rw [show ('W' : Char) :: (strL "HERE " ++ (w ++ suffix)) =
    strL "WHERE " ++ (w ++ suffix) by
    rw [show strL "HERE " = ['H', 'E', 'R', 'E', ' '] from rfl, strL_WHEREsp_eq]
    simp]
  rw [kwCapAt_where _ w suffix hsuf hne hhead hdot hstops]

theorem strL_sel9_eq : strL "SELECT * " =
    ['S', 'E', 'L', 'E', 'C', 'T', ' ', '*', ' '] := rfl

theorem collectionAt_FROM (rest : List Char) :
    collectionAt (strL "FROM products WHERE " ++ rest) = some (strL "products") := by
  rw [show strL "FROM products WHERE " ++ rest =
    'F' :: 'R' :: 'O' :: 'M' :: ' ' :: 'p' :: 'r' :: 'o' :: 'd' :: 'u' :: 'c' :: 't' ::
    's' :: ' ' :: (strL "WHERE " ++ rest) by
    rw [show strL "FROM products WHERE " =
      ['F', 'R', 'O', 'M', ' ', 'p', 'r', 'o', 'd', 'u', 'c', 't', 's', ' '] ++
        strL "WHERE " from rfl]
    simp]
  simp [collectionAt, kwWordAt, startsWithCI, ciEq, lowerChar, wsRunL, wordRun,
    List.takeWhile_cons, isWordChar, jsSpace, strL,
    show strL "FROM" = ['F', 'R', 'O', 'M'] from rfl]

theorem getCollectionName_selP (rest : List Char) :
    getCollectionName (strL "SELECT * FROM products WHERE " ++ rest) = some "products" := by
  unfold getCollectionName
  rw [show strL "SELECT * FROM products WHERE " ++ rest =
    strL "SELECT * " ++ (strL "FROM products WHERE " ++ rest) by
    simp [strL_sel9_eq, strL_selP_eq,
      show strL "FROM products WHERE " =
        ['F', 'R', 'O', 'M', ' ', 'p', 'r', 'o', 'd', 'u', 'c', 't', 's', ' ', 'W',
         'H', 'E', 'R', 'E', ' '] from rfl]]
  rw [scanFor_append_none _ (strL "SELECT * ") _ (by
    intro j hj
    rw [strL_sel9_eq] at hj ⊢
    simp only [List.length_cons, List.length_nil] at hj
    interval_cases j <;>
      simp [collectionAt, kwWordAt, startsWithCI, ciEq, lowerChar,
        show strL "FROM" = ['F', 'R', 'O', 'M'] from rfl,
        show strL "INTO" = ['I', 'N', 'T', 'O'] from rfl,
        show strL "UPDATE" = ['U', 'P', 'D', 'A', 'T', 'E'] from rfl])]
  rw [show strL "FROM products WHERE " ++ rest =
    'F' :: (strL "ROM products WHERE " ++ rest) from rfl]
  simp only [scanFor]
  rw [show ('F' : Char) :: (strL "ROM products WHERE " ++ rest) =
    strL "FROM products WHERE " ++ rest by
    rw [show strL "ROM products WHERE " =
      ['R', 'O', 'M', ' ', 'p', 'r', 'o', 'd', 'u', 'c', 't', 's', ' ', 'W', 'H',
       'E', 'R', 'E', ' '] from rfl,
      show strL "FROM products WHERE " =
      ['F', 'R', 'O', 'M', ' ', 'p', 'r', 'o', 'd', 'u', 'c', 't', 's', ' ', 'W',
       'H', 'E', 'R', 'E', ' '] from rfl]
    simp]
  rw [collectionAt_FROM rest]
  rfl

theorem containsSub_WHERE_selP (rest : List Char) :
    containsSub (strL "WHERE") (strL "SELECT * FROM products WHERE " ++ rest) = true := by
  rw [show strL "SELECT * FROM products WHERE " ++ rest =
    strL "SELECT * FROM products " ++ (strL "WHERE " ++ rest) by
    simp [strL_selPa_eq, strL_selP_eq, strL_WHEREsp_eq]]
  apply containsSub_append_startsWith
  rw [strL_WHERE_eq, show strL "WHERE " ++ rest =
    'W' :: 'H' :: 'E' :: 'R' :: 'E' :: ' ' :: rest by rw [strL_WHEREsp_eq]; simp]
  simp [startsWithP]

theorem stopsAt_limit_suffix (k : List Char) :
    stopsAt [strL "ORDER", strL "LIMIT"] (strL " LIMIT " ++ k) = true := by
  rw [show strL " LIMIT " ++ k =
    ' ' :: 'L' :: 'I' :: 'M' :: 'I' :: 'T' :: ' ' :: k by
    rw [show strL " LIMIT " = [' ', 'L', 'I', 'M', 'I', 'T', ' '] from rfl]
    simp]
  simp only [stopsAt]
  have h1 : jsSpace ' ' = true := rfl
  have h2 : jsSpace 'L' = false := rfl
  simp [wsRunL, List.takeWhile_cons, h1, h2, startsWithCI, ciEq, lowerChar,
    show strL "LIMIT" = ['L', 'I', 'M', 'I', 'T'] from rfl]

theorem c9good_unpack {w : List Char} (h : c9good w = true) :
    headNotSpace w = true ∧ w ≠ [] ∧ (∀ c ∈ w, dotOK c = true) ∧
      lastNotSpaceB w = true ∧ c9innerOK [strL "ORDER", strL "LIMIT"] w = true := by
  simp only [c9good, Bool.and_eq_true, Bool.not_eq_true', List.all_eq_true] at h
  refine ⟨h.1.1.1.1, ?_, h.1.1.2, h.1.2, h.2⟩
  rw [← List.isEmpty_eq_false]
  exact h.1.1.1.2

theorem sqlToMongoQuery_selP (w suffix : List Char) (params : List JSVal)
    (hsuf : stopsAt [strL "ORDER", strL "LIMIT"] suffix = true)
    (hshape : suffix = [] ∨ ∃ s2, suffix = ' ' :: s2)
    (hgood : c9good w = true) :
    sqlToMongoQuery (strL "SELECT * FROM products WHERE " ++ (w ++ suffix)) params =
      whereClauseToQuery w params := by
  obtain ⟨hh, hne, hdot, hlast, hinner⟩ := c9good_unpack hgood
  have hstops := innerOK_no_stop [strL "ORDER", strL "LIMIT"] (by decide)
    w suffix hshape hlast hinner
  unfold sqlToMongoQuery
  rw [containsSub_WHERE_selP (w ++ suffix)]
  simp only [if_true]
  rw [whereClauseOf_selP w suffix hsuf hne hh hdot hstops]

/-- C9: a `LIMIT` clause on a document-path SELECT is never applied.  The
WHERE-clause extraction stops before the `LIMIT` text, so for any
well-formed clause text `w` (nonempty, no leading/trailing whitespace, no
line terminators, no internal whitespace-ORDER/LIMIT stop point) the query
with ` LIMIT k` appended translates to exactly the same filter as the
query without it; and `allAsync` places no bound on the result: it returns
(a possibly sorted permutation of) the full set of matching documents. -/
theorem c9_limit_clause_ignored :
    (∀ (w k : List Char) (params : List JSVal), c9good w = true →
      sqlToMongoQuery (strL "SELECT * FROM products WHERE " ++ w ++ strL " LIMIT " ++ k)
          params = whereClauseToQuery w params ∧
      sqlToMongoQuery (strL "SELECT * FROM products WHERE " ++ w) params =
        whereClauseToQuery w params) ∧
    (∀ (sql : List Char) (params : List JSVal) (coll : Coll) (rm : RegexEngine)
      (q : Filter), (getCollectionName sql).isSome = true →
      sqlToMongoQuery sql params = some q →
      ∃ l, allAsync sql params coll rm = some l ∧
        l.Perm ((coll.filter (fun d => docMatches rm d q)).map normalizeDoc)) := by
  constructor
  · intro w k params hgood
    constructor
    · rw [show strL "SELECT * FROM products WHERE " ++ w ++ strL " LIMIT " ++ k =
        strL "SELECT * FROM products WHERE " ++ (w ++ (strL " LIMIT " ++ k)) by
        simp [List.append_assoc]]
      exact sqlToMongoQuery_selP w (strL " LIMIT " ++ k) params (stopsAt_limit_suffix k)
        (Or.inr ⟨strL "LIMIT " ++ k, by
          rw [show strL " LIMIT " = ' ' :: strL "LIMIT " from rfl]
          simp⟩) hgood
    · rw [show strL "SELECT * FROM products WHERE " ++ w =
        strL "SELECT * FROM products WHERE " ++ (w ++ []) by simp]
      exact sqlToMongoQuery_selP w [] params rfl (Or.inl rfl) hgood
  · intro sql params coll rm q hc hq
    unfold allAsync
    match hg : getCollectionName sql with
    | none => rw [hg] at hc; simp at hc
    | some cn =>
      rw [hq]
      simp only [Option.some.injEq]
      refine ⟨_, rfl, ?_⟩
      unfold applySort
      split
      · split
        · exact (List.mergeSort_perm _ _).map normalizeDoc
        · exact List.Perm.refl _
      · exact List.Perm.refl _

/-- C9 witness: `SELECT * FROM products WHERE category = ? LIMIT 5` builds
the same filter as the query without the LIMIT clause, and `allAsync`
returns both matching documents despite the LIMIT. -/
theorem c9_limit_clause_ignored_witness :
    sqlToMongoQuery (strL "SELECT * FROM products WHERE category = ? LIMIT 5")
        [JSVal.str "flower"] =
      whereClauseToQuery (strL "category = ?") [JSVal.str "flower"] ∧
    ∃ l, allAsync (strL "SELECT * FROM products WHERE category = ? LIMIT 5")
        [JSVal.str "flower"]
        [[("_id", JSVal.num 1), ("category", JSVal.str "flower")],
         [("_id", JSVal.num 2), ("category", JSVal.str "flower")]]
        (fun _ _ => false) = some l ∧
      l.Perm ((([[("_id", JSVal.num 1), ("category", JSVal.str "flower")],
         [("_id", JSVal.num 2), ("category", JSVal.str "flower")]] : Coll).filter
          (fun d => docMatches (fun _ _ => false) d
            [("category", .eqv (.str "flower"))])).map normalizeDoc) :=
  ⟨(c9_limit_clause_ignored.1 (strL "category = ?") (strL "5")
      [JSVal.str "flower"] (by decide)).1,
   c9_limit_clause_ignored.2 (strL "SELECT * FROM products WHERE category = ? LIMIT 5")
      [JSVal.str "flower"]
      [[("_id", JSVal.num 1), ("category", JSVal.str "flower")],
       [("_id", JSVal.num 2), ("category", JSVal.str "flower")]]
      (fun _ _ => false) [("category", .eqv (.str "flower"))] (by decide) (by decide)⟩
